import Mathlib

/-
Verification of the claim-migrator core: a shallow embedding of the
resource gateway (resource/claims.go), the conflict-safe mutators
(UpdateCompositeWithNewClaim, DeleteSourceClaim) and the migration
orchestrator (migrate.Cmd.Run, Cmd.getResourceAndName), together with
theorems settling the specification claims.

The remote store is modelled as an association list from fully derived
resource coordinates (group, version, plural resource, namespace, name)
to unstructured documents; every remote call appends an operation to a
trace, and optimistic-concurrency conflicts are injected from a
schedule of interfering writes carried by the store state.
-/

namespace ClaimMigrator


/-- Association-list lookup; models both Go string-keyed maps and the
remote store keyed by resource coordinates. -/
def lookupA {α β : Type} [DecidableEq α] : List (α × β) → α → Option β
  | [], _ => none
  | (k, v) :: rest, a => if k = a then some v else lookupA rest a

/-- Association-list insert with replace-or-append semantics, matching a
Go map assignment `m[k] = v`. -/
def insertA {α β : Type} [DecidableEq α] : List (α × β) → α → β → List (α × β)
  | [], a, b => [(a, b)]
  | (k, v) :: rest, a, b => if k = a then (a, b) :: rest else (k, v) :: insertA rest a b

/-- Association-list removal of a key. -/
def removeA {α β : Type} [DecidableEq α] : List (α × β) → α → List (α × β)
  | [], _ => []
  | (k, v) :: rest, a => if k = a then removeA rest a else (k, v) :: removeA rest a

/-- strings.Split for a one-character separator, written as structural
recursion over the character list so that concrete runs reduce inside
the kernel. -/
def splitAux (sep : Char) : List Char → List Char → List String
  | [], acc => [String.mk acc.reverse]
  | c :: rest, acc =>
    if c = sep then String.mk acc.reverse :: splitAux sep rest []
    else splitAux sep rest (c :: acc)

/-- strings.Split(s, sep) for a one-character separator. -/
def goSplit (s : String) (sep : Char) : List String := splitAux sep s.data []

/-- strings.ToLower restricted to ASCII, which is all the program feeds
it (Kubernetes kinds are ASCII); structural so concrete runs reduce. -/
def lowerChar (c : Char) : Char :=
  if c.toNat ≥ 65 ∧ c.toNat ≤ 90 then Char.ofNat (c.toNat + 32) else c

/-- strings.ToLower over a whole string. -/
def lowerStr (s : String) : String := String.mk (s.data.map lowerChar)

/-- schema.GroupVersionKind: the fully qualified type of a resource. -/
structure GVK where
  Group : String
  Version : String
  Kind : String
deriving DecidableEq, Repr

/-- corev1.ObjectReference, restricted to the fields the program reads. -/
structure ObjRef where
  Kind : String
  APIVersion : String
  Name : String
  Namespace : String
deriving DecidableEq, Repr

/-- claim.Reference as produced by claim.Unstructured.GetReference and
consumed by composite.Unstructured.SetClaimReference. -/
structure Reference where
  APIVersion : String
  Kind : String
  Name : String
  Namespace : String
deriving DecidableEq, Repr

/-- An unstructured document, restricted to the fields the program reads
or writes through typed accessors; `payload` stands for the rest of the
document, which the program only deep-copies. -/
structure UDoc where
  apiVersion : String
  kind : String
  name : String
  ns : String
  resourceVersion : String
  labels : Option (List (String × String))
  finalizers : List String
  resourceRef : Option ObjRef
  claimRef : Option Reference
  payload : String
deriving DecidableEq, Repr

/-- claim.Unstructured.GetReference: a reference to the claim built from
its own apiVersion, kind, name and namespace. -/
def UDoc.getReference (u : UDoc) : Reference :=
  { APIVersion := u.apiVersion, Kind := u.kind, Name := u.name, Namespace := u.ns }

/-- metav1.Object.GetNamespace. -/
def UDoc.getNamespace (u : UDoc) : String := u.ns

/-- Label lookup on a document, `none` when the labels map is nil or the
key is absent. -/
def UDoc.getLabel (u : UDoc) (k : String) : Option String :=
  match u.labels with
  | none => none
  | some l => lookupA l k

/-- schema.ParseGroupVersion as used by ObjectReference.GroupVersionKind:
no slash means a bare version with empty group; more than one slash is
the error case, which FromAPIVersionAndKind turns into an empty
group/version. -/
def parseGV (s : String) : String × String :=
  match goSplit s '/' with
  | [v] => ("", v)
  | [g, v] => (g, v)
  | _ => ("", "")

/-- schema.GroupVersion.String. -/
def gvString (gvk : GVK) : String :=
  if gvk.Group = "" then gvk.Version else gvk.Group ++ "/" ++ gvk.Version

/-- The coordinates a dynamic-client call is addressed by: group, version,
plural resource name, namespace and object name. -/
structure RKey where
  Group : String
  Version : String
  Resource : String
  Ns : String
  Name : String
deriving DecidableEq, Repr

/-- The GroupVersionResource plus namespace and name derived from an
ObjectReference by the gateway: the plural resource is the lowercased
kind with an "s" appended. -/
def keyOf (ref : ObjRef) : RKey :=
  let gv := parseGV ref.APIVersion
  { Group := gv.1, Version := gv.2, Resource := lowerStr ref.Kind ++ "s"
    Ns := ref.Namespace, Name := ref.Name }

/-- The coordinates used by UpdateCompositeWithNewClaim, which never
calls .Namespace on the dynamic client: the composite is addressed
cluster-scoped, with an empty namespace. -/
def clusterKeyOf (ref : ObjRef) : RKey :=
  let gv := parseGV ref.APIVersion
  { Group := gv.1, Version := gv.2, Resource := lowerStr ref.Kind ++ "s"
    Ns := "", Name := ref.Name }

/-- Go error values. `wrap` is errors.Wrap with a non-nil cause; a nil Go
error is `Option.none` at use sites. -/
inductive ErrVal where
  | msg (s : String)
  | wrap (s : String) (cause : ErrVal)
  | notFound
  | conflict
  | alreadyExists
deriving DecidableEq, Repr

/-- k8serrors.IsNotFound. -/
def isNotFound : ErrVal → Bool
  | .notFound => true
  | _ => false

/-- k8serrors.IsConflict. -/
def isConflict : ErrVal → Bool
  | .conflict => true
  | _ => false

/-- errors.Wrap of crossplane-runtime/pkg/errors and github.com/pkg/errors:
wrapping a nil error returns nil. -/
def wrapErr (e : Option ErrVal) (m : String) : Option ErrVal :=
  match e with
  | none => none
  | some v => some (.wrap m v)

/-- One remote call as recorded in the trace. -/
inductive Op where
  | get (k : RKey)
  | create (k : RKey) (d : UDoc)
  | update (k : RKey) (d : UDoc)
  | delete (k : RKey)
deriving DecidableEq, Repr

/-- Whether an operation mutates the remote store. -/
def Op.isMut : Op → Bool
  | .get _ => false
  | _ => true

/-- Whether an operation is a create. -/
def Op.isCreate : Op → Bool
  | .create _ _ => true
  | _ => false

/-- Whether an operation is an update. -/
def Op.isUpdate : Op → Bool
  | .update _ _ => true
  | _ => false

/-- The remote store: its objects, a schedule of interfering writes
(each one causes the next update attempt to fail with a version
conflict, leaving the interferer's document in place), and the trace of
remote calls issued so far. -/
structure Store where
  objects : List (RKey × UDoc)
  faults : List UDoc
  trace : List Op
deriving DecidableEq, Repr

/-- Record one remote call in the trace. -/
def Store.logOp (st : Store) (o : Op) : Store :=
  { st with trace := st.trace ++ [o] }

/-- The raw dynamic-client Get: a missing object surfaces as a NotFound
error, exactly what k8serrors.IsNotFound recognises. -/
def Store.rawGet (st : Store) (k : RKey) : Except ErrVal UDoc × Store :=
  let st1 := st.logOp (Op.get k)
  match lookupA st1.objects k with
  | some d => (.ok d, st1)
  | none => (.error .notFound, st1)

/-- The raw dynamic-client Create: fails with AlreadyExists when the key
is occupied, otherwise stores the document as given. -/
def Store.rawCreate (st : Store) (k : RKey) (d : UDoc) : Except ErrVal UDoc × Store :=
  let st1 := st.logOp (Op.create k d)
  match lookupA st1.objects k with
  | some _ => (.error .alreadyExists, st1)
  | none => (.ok d, { st1 with objects := insertA st1.objects k d })

/-- The raw dynamic-client Update: NotFound when the key is absent; when
an interfering write is scheduled, the attempt fails with a version
conflict and the interferer's document replaces the object, so a retry
that re-fetches observes fresh content; otherwise the document is
stored as given. -/
def Store.rawUpdate (st : Store) (k : RKey) (d : UDoc) : Except ErrVal UDoc × Store :=
  let st1 := st.logOp (Op.update k d)
  match lookupA st1.objects k with
  | none => (.error .notFound, st1)
  | some _ =>
    match st1.faults with
    | f :: rest =>
        (.error .conflict, { st1 with objects := insertA st1.objects k f, faults := rest })
    | [] => (.ok d, { st1 with objects := insertA st1.objects k d })

/-- The raw dynamic-client Delete: NotFound when the key is absent,
otherwise the object is removed. -/
def Store.rawDelete (st : Store) (k : RKey) : Option ErrVal × Store :=
  let st1 := st.logOp (Op.delete k)
  match lookupA st1.objects k with
  | none => (some .notFound, st1)
  | some _ => (none, { st1 with objects := removeA st1.objects k })

/-- GetResource (resource/claims.go): the tri-state Get, translating the
store's NotFound error into found=false with a nil error. -/
def GetResource (st : Store) (ref : ObjRef) : (Option UDoc × Bool × Option ErrVal) × Store :=
  match st.rawGet (keyOf ref) with
  | (.ok u, st1) => ((some u, true, none), st1)
  | (.error e, st1) =>
    if isNotFound e then ((none, false, none), st1) else ((none, false, some e), st1)

/-- ResourceExists (resource/claims.go): projection of GetResource. -/
def ResourceExists (st : Store) (ref : ObjRef) : (Bool × Option ErrVal) × Store :=
  match GetResource st ref with
  | ((_, re, err), st1) => ((re, err), st1)

/-- CreateResource (resource/claims.go): the raw create with its error
wrapped as claim creation. -/
def CreateResource (st : Store) (ref : ObjRef) (u : UDoc) : Except ErrVal UDoc × Store :=
  match st.rawCreate (keyOf ref) u with
  | (.ok d, st1) => (.ok d, st1)
  | (.error e, st1) => (.error (.wrap "unable to create new claim" e), st1)

/-- The result of one Go function call that may return an error value or
panic; `err none` is a nil-error (successful) return. -/
inductive StepRes where
  | err (e : Option ErrVal)
  | panicked (m : String)
deriving DecidableEq, Repr

/-- The Go runtime message for an assignment into a nil map. -/
def nilMapMsg : String := "assignment to entry in nil map"

/-- The Go runtime message for dereferencing a nil pointer. -/
def nilPointerMsg : String := "invalid memory address or nil pointer dereference"

/-- A Go map assignment `m[k] = v`: panics when the map is nil. -/
def goMapAssign (m : Option (List (String × String))) (k v : String) :
    Except String (List (String × String)) :=
  match m with
  | none => .error nilMapMsg
  | some l => .ok (insertA l k v)

/-- retry.DefaultRetry.Steps of client-go: at most five attempts. -/
def DefaultRetrySteps : Nat := 5

/-- wait.ExponentialBackoff as driven by retry.OnError: run the body up
to the given number of attempts, stopping on success or on a
non-conflict error; when the budget is exhausted the last conflict
error is returned. A panic in the body escapes immediately. -/
def retryOnConflictAux (fn : Store → StepRes × Store) : Nat → Store → StepRes × Store
  | 0, st => (.err (some .conflict), st)
  | n + 1, st =>
    match fn st with
    | (.panicked m, st1) => (.panicked m, st1)
    | (.err none, st1) => (.err none, st1)
    | (.err (some e), st1) =>
      if isConflict e then
        match n with
        | 0 => (.err (some e), st1)
        | _ + 1 => retryOnConflictAux fn n st1
      else (.err (some e), st1)

/-- retry.RetryOnConflict with retry.DefaultRetry. -/
def RetryOnConflict (fn : Store → StepRes × Store) (st : Store) : StepRes × Store :=
  retryOnConflictAux fn DefaultRetrySteps st

/-- The label key written on the composite. -/
def claimNamespaceLabel : String := "crossplane.io/claim-namespace"

/-- The desired composite document built by the body of
UpdateCompositeWithNewClaim from a freshly fetched composite `xru`, the
new claim `xrcu` and the composite's label list `l`: the claim
reference is repointed at the new claim and the claim-namespace label
is set to the new claim's namespace. -/
def compositeTransform (xru xrcu : UDoc) (l : List (String × String)) : UDoc :=
  { xru with claimRef := some xrcu.getReference
             labels := some (insertA l claimNamespaceLabel xrcu.getNamespace) }

/-- The retried body of UpdateCompositeWithNewClaim: fetch the
composite, repoint its claim reference, write the claim-namespace label
into the label map obtained from the fetched composite (a Go map
assignment, which panics when that map is nil), then update. Note the
source assigns the fetched deep copy over the freshly constructed
composite, so the earlier SetGroupVersionKind is overwritten. -/
def updateCompositeBody (xrKey : RKey) (xrcu : UDoc) (st : Store) : StepRes × Store :=
  match st.rawGet xrKey with
  | (.error e, st1) => (.err (some e), st1)
  | (.ok xru, st1) =>
    let xr := { xru with claimRef := some xrcu.getReference }
    match goMapAssign xr.labels claimNamespaceLabel xrcu.getNamespace with
    | .error m => (.panicked m, st1)
    | .ok labels =>
      match st1.rawUpdate xrKey { xr with labels := some labels } with
      | (.ok _, st2) => (.err none, st2)
      | (.error e, st2) => (.err (some e), st2)

/-- UpdateCompositeWithNewClaim (resource/claims.go): repoint the
composite named by the claim's resource reference at the new claim,
retrying the whole fetch-transform-update body on conflicts. A nil
reference (a claim without spec.resourceRef) panics on the first field
access. -/
def UpdateCompositeWithNewClaim (st : Store) (xrRef : Option ObjRef) (xrcu : UDoc) :
    StepRes × Store :=
  match xrRef with
  | none => (.panicked nilPointerMsg, st)
  | some ref => RetryOnConflict (updateCompositeBody (clusterKeyOf ref) xrcu) st

/-- The cleared source claim written before deletion: composite
reference removed and finalizers emptied. -/
def clearTransform (u : UDoc) : UDoc :=
  { u with resourceRef := none, finalizers := [] }

/-- The retried first phase of DeleteSourceClaim: fetch the claim, clear
its composite reference and finalizers, and update it. -/
def deleteUpdateBody (key : RKey) (st : Store) : StepRes × Store :=
  match st.rawGet key with
  | (.error e, st1) => (.err (some e), st1)
  | (.ok u, st1) =>
    match st1.rawUpdate key (clearTransform u) with
    | (.ok _, st2) => (.err none, st2)
    | (.error e, st2) => (.err (some e), st2)

/-- The retried second phase of DeleteSourceClaim: re-fetch the newest
version of the claim, then delete it. -/
def deleteDeleteBody (key : RKey) (st : Store) : StepRes × Store :=
  match st.rawGet key with
  | (.error e, st1) => (.err (some e), st1)
  | (.ok _, st1) =>
    match st1.rawDelete key with
    | (none, st2) => (.err none, st2)
    | (some e, st2) => (.err (some e), st2)

/-- The first, independently retried mutation of DeleteSourceClaim. -/
def deleteSourceUpdatePhase (key : RKey) (st : Store) : StepRes × Store :=
  RetryOnConflict (deleteUpdateBody key) st

/-- The second, independently retried phase of DeleteSourceClaim. -/
def deleteSourceDeletePhase (key : RKey) (st : Store) : StepRes × Store :=
  RetryOnConflict (deleteDeleteBody key) st

/-- DeleteSourceClaim (resource/claims.go): clear the source claim's
composite reference and finalizers in a retried update, then (only if
that update phase returned nil) re-fetch and delete the claim in a
second retried phase. -/
def DeleteSourceClaim (st : Store) (ref : ObjRef) : StepRes × Store :=
  let key := keyOf ref
  match deleteSourceUpdatePhase key st with
  | (.err none, st1) => deleteSourceDeletePhase key st1
  | (r, st1) => (r, st1)

/-- migrate.Cmd: the subcommand's arguments. -/
structure Cmd where
  Claim : String
  Namespace : String
  DestNamespace : String
  Name : String
deriving DecidableEq, Repr

def errCreateDestClaim : String := "cannot create destination claim "
def errGetResource : String := "cannot get requested resource"
def errGetMapping : String := "cannot get mapping for resource"
def errMissingName : String :=
  "missing name, must be provided separately \x27TYPE[.VERSION][.GROUP] [NAME]\x27 or in the \x27TYPE[.VERSION][.GROUP][/NAME]\x27 format"
def errNameDoubled : String :=
  "name provided twice, must be provided separately \x27TYPE[.VERSION][.GROUP] [NAME]\x27 or in the \x27TYPE[.VERSION][.GROUP][/NAME]\x27 format"
def errNotNamespaced : String := " resource not namespaces"
def errInvalidResource : String :=
  "invalid resource, must be provided in the \x27TYPE[.VERSION][.GROUP][/NAME]\x27 format"
def errInvalidResourceAndName : String := "invalid resource and name"

/-- The formatted message of the Errorf return for a missing destination
namespace. -/
def msgNamespaceMissing (ns : String) : String :=
  "❌ cannot create new claim, namespace " ++ ns ++ " does not exist"

/-- The formatted message of the Errorf return for an already existing
destination claim. -/
def msgClaimAlreadyExists (name ns : String) : String :=
  "Cannot create new claim: claim " ++ name ++ " in namespace " ++ ns ++ " already exists "

/-- Cmd.getResourceAndName (migrate.go): split the claim token on the
slash and combine it with the separately supplied name. -/
def Cmd.getResourceAndName (c : Cmd) : Except ErrVal (String × String) :=
  if c.Claim = "" then .error (.msg errInvalidResource)
  else
    match goSplit c.Claim '/' with
    | [r] =>
      if c.Name = "" then .error (.msg errMissingName)
      else .ok (r, c.Name)
    | [r, n] =>
      if c.Name ≠ "" then .error (.msg errNameDoubled)
      else .ok (r, n)
    | _ => .error (.msg errInvalidResource)

/-- meta.RESTScopeNameNamespace. -/
def RESTScopeNameNamespace : String := "namespace"

/-- meta.RESTMapping, restricted to the fields the orchestrator reads:
the resolved GroupVersionKind and the scope name. -/
structure RESTMapping where
  GroupVersionKind : GVK
  Scope : String
deriving DecidableEq, Repr

/-- The ObjectReference the orchestrator builds for the claim of the
resolved kind with the given name and namespace. -/
def mkClaimObjRef (mp : RESTMapping) (name ns : String) : ObjRef :=
  { Kind := mp.GroupVersionKind.Kind
    APIVersion := gvString mp.GroupVersionKind
    Name := name
    Namespace := ns }

/-- The ObjectReference the orchestrator builds for the destination
namespace check. -/
def nsRefOf (c : Cmd) : ObjRef :=
  { Kind := "Namespace", APIVersion := "v1", Name := c.DestNamespace, Namespace := "" }

/-- The tail of Cmd.Run after the composite was updated: delete the
source claim, wrapping a non-nil failure. -/
def Cmd.runRetire (srcClaimRef : ObjRef) (st : Store) : StepRes × Store :=
  match DeleteSourceClaim st srcClaimRef with
  | (.panicked m, st1) => (.panicked m, st1)
  | (.err (some e), st1) => (.err (wrapErr (some e) "unable to delete source claim"), st1)
  | (.err none, st1) => (.err none, st1)

/-- The tail of Cmd.Run after the destination claim was created: read
the composite reference off the created claim and repair the composite,
then retire the source claim. -/
def Cmd.runRepair (srcClaimRef : ObjRef) (dstClaimUnstructured : UDoc) (st : Store) :
    StepRes × Store :=
  let xrc := dstClaimUnstructured
  let xr := xrc.resourceRef
  match UpdateCompositeWithNewClaim st xr xrc with
  | (.panicked m, st1) => (.panicked m, st1)
  | (.err (some e), st1) => (.err (wrapErr (some e) "unable to update composite"), st1)
  | (.err none, st1) => Cmd.runRetire srcClaimRef st1

/-- The body of Cmd.Run after type resolution: check the source claim
exists, check the destination claim is absent, create the destination
claim as a deep copy with rewritten namespace and cleared
resourceVersion, then repair the composite and retire the source. -/
def Cmd.runMigrate (c : Cmd) (mp : RESTMapping) (name : String) (st : Store) :
    StepRes × Store :=
  let srcClaimRef := mkClaimObjRef mp name c.Namespace
  match GetResource st srcClaimRef with
  | ((_, _, some e), st1) => (.err (wrapErr (some e) errGetResource), st1)
  | ((srcClaimOpt, re, none), st1) =>
    match re with
    | false => (.err (wrapErr none "source Claim not found"), st1)
    | true =>
      match srcClaimOpt with
      | none => (.panicked nilPointerMsg, st1)
      | some srcClaim =>
        let dstClaimRef := mkClaimObjRef mp name c.DestNamespace
        match GetResource st1 dstClaimRef with
        | ((_, _, some e), st2) => (.err (wrapErr (some e) errGetResource), st2)
        | ((_, re2, none), st2) =>
          match re2 with
          | true => (.err (some (.msg (msgClaimAlreadyExists name c.DestNamespace))), st2)
          | false =>
            let dstClaim := { srcClaim with ns := c.DestNamespace, resourceVersion := "" }
            match CreateResource st2 dstClaimRef dstClaim with
            | (.error e, st3) => (.err (wrapErr (some e) errCreateDestClaim), st3)
            | (.ok dstClaimUnstructured, st3) =>
              Cmd.runRepair srcClaimRef dstClaimUnstructured st3

/-- The body of Cmd.Run after the namespace check: parse the token and
name, resolve the mapping, reject (with a wrapped nil error) a
non-namespaced scope, then migrate. -/
def Cmd.runResolve (c : Cmd) (mappingFor : String → Except ErrVal RESTMapping) (st : Store) :
    StepRes × Store :=
  match c.getResourceAndName with
  | .error e => (.err (wrapErr (some e) errInvalidResourceAndName), st)
  | .ok (res, name) =>
    match mappingFor res with
    | .error e => (.err (wrapErr (some e) errGetMapping), st)
    | .ok mapping =>
      if mapping.Scope ≠ RESTScopeNameNamespace then
        (.err (wrapErr none errNotNamespaced), st)
      else c.runMigrate mapping name st

/-- migrate.Cmd.Run: the migration orchestrator. Kubeconfig loading and
client construction, which precede any remote call and are excluded
from the core, are modelled as succeeding; `mappingFor` is the type
resolver consulted for the parsed token. The first remote call is the
destination-namespace existence check. -/
def Cmd.Run (c : Cmd) (mappingFor : String → Except ErrVal RESTMapping) (st : Store) :
    StepRes × Store :=
  match GetResource st (nsRefOf c) with
  | ((_, _, some e), st1) => (.err (wrapErr (some e) errGetResource), st1)
  | ((_, re, none), st1) =>
    match re with
    | false => (.err (some (.msg (msgNamespaceMissing c.DestNamespace))), st1)
    | true => c.runResolve mappingFor st1

/-- The latest version of a document under a schedule of interfering
writes: the last interferer's document, or the original when none is
scheduled. -/
def lastD : List UDoc → UDoc → UDoc
  | [], x0 => x0
  | f :: rest, _ => lastD rest f

/-- The number of update attempts recorded in a trace. -/
def updCount (tr : List Op) : Nat := (tr.filter Op.isUpdate).length

/-- Checker: every delete of `key` in the list is immediately preceded
by a get of `key`; `prev` is the operation just before the list. -/
def delPrecededAux (key : RKey) : Option Op → List Op → Bool
  | _, [] => true
  | prev, op :: rest =>
    (if op = Op.delete key then decide (prev = some (Op.get key)) else true)
      && delPrecededAux key (some op) rest

/-- The operation carried over a list: its last element, or the incoming
carry when the list is empty. -/
def lastCarry (p : Option Op) : List Op → Option Op
  | [] => p
  | op :: rest => lastCarry (some op) rest

/-! Concrete fixtures used by the witnesses: a tenant claim bound to a
cluster-scoped composite, in a store with the destination namespace. -/

def exMapping : RESTMapping := ⟨⟨"example.com", "v1", "Tenant"⟩, "namespace"⟩

def exMapper : String → Except ErrVal RESTMapping := fun _ => .ok exMapping

def exMapperRoot : String → Except ErrVal RESTMapping :=
  fun _ => .ok ⟨⟨"example.com", "v1", "Tenant"⟩, "root"⟩

def exXRef : ObjRef := ⟨"XTenant", "example.com/v1", "a-xyz", ""⟩

def exNsDoc : UDoc := ⟨"v1", "Namespace", "dest", "", "7", none, [], none, none, "nsdoc"⟩

def exSrcDoc : UDoc :=
  ⟨"example.com/v1", "Tenant", "a", "src", "42", some [("x", "y")], ["f1"],
   some exXRef, none, "body"⟩

def exXRDoc : UDoc :=
  ⟨"example.com/v1", "XTenant", "a-xyz", "", "9",
   some [("crossplane.io/claim-namespace", "src")], [],
   none, some ⟨"example.com/v1", "Tenant", "a", "src"⟩, "xrbody"⟩

def exFault : UDoc :=
  ⟨"example.com/v1", "XTenant", "a-xyz", "", "10", some [("other", "lbl")], [],
   none, none, "xrbody2"⟩

def exCmd : Cmd := ⟨"tenants/a", "src", "dest", ""⟩

def exNsKey : RKey := keyOf (nsRefOf exCmd)

def exSrcKey : RKey := keyOf (mkClaimObjRef exMapping "a" "src")

def exDstKey : RKey := keyOf (mkClaimObjRef exMapping "a" "dest")

def exXRKey : RKey := clusterKeyOf exXRef

def exStore : Store := ⟨[(exNsKey, exNsDoc), (exSrcKey, exSrcDoc), (exXRKey, exXRDoc)], [], []⟩

def exStoreOneConflict : Store :=
  ⟨[(exNsKey, exNsDoc), (exSrcKey, exSrcDoc), (exXRKey, exXRDoc)], [exFault], []⟩

def exStoreNoSrc : Store := ⟨[(exNsKey, exNsDoc), (exXRKey, exXRDoc)], [], []⟩

def exStoreNoNs : Store := ⟨[(exSrcKey, exSrcDoc), (exXRKey, exXRDoc)], [], []⟩

def exStoreDstTaken : Store :=
  ⟨[(exNsKey, exNsDoc), (exSrcKey, exSrcDoc), (exDstKey, exSrcDoc), (exXRKey, exXRDoc)], [], []⟩

def exXROnly : Store := ⟨[(exXRKey, exXRDoc)], [exFault], []⟩

def exClaimOnly : Store := ⟨[(exSrcKey, exSrcDoc)], [], []⟩

def exXRDocNil : UDoc :=
  ⟨"example.com/v1", "XTenant", "a-xyz", "", "9", none, [], none, none, "xrbody"⟩

def exXRNilOnly : Store := ⟨[(exXRKey, exXRDocNil)], [], []⟩

def exXRCleanOnly : Store := ⟨[(exXRKey, exXRDoc)], [], []⟩

theorem lookupA_insertA_self {α β : Type} [DecidableEq α] (l : List (α × β)) (a : α) (b : β) :
    lookupA (insertA l a b) a = some b := by
  induction l with
  | nil => simp [insertA, lookupA]
  | cons hd tl ih =>
    obtain ⟨k, v⟩ := hd
    by_cases h : k = a <;> simp [insertA, lookupA, h, ih]

theorem lookupA_insertA_ne {α β : Type} [DecidableEq α] (l : List (α × β)) {a a' : α} (b : β)
    (h : a' ≠ a) : lookupA (insertA l a b) a' = lookupA l a' := by
  induction l with
  | nil => simp [insertA, lookupA, Ne.symm h]
  | cons hd tl ih =>
    obtain ⟨k, v⟩ := hd
    by_cases hk : k = a
    · subst hk
      simp [insertA, lookupA, Ne.symm h]
    · simp [insertA, lookupA, hk, ih]

theorem lookupA_removeA_self {α β : Type} [DecidableEq α] (l : List (α × β)) (a : α) :
    lookupA (removeA l a) a = none := by
  induction l with
  | nil => simp [removeA, lookupA]
  | cons hd tl ih =>
    obtain ⟨k, v⟩ := hd
    by_cases h : k = a <;> simp [removeA, lookupA, h, ih]

theorem lookupA_removeA_ne {α β : Type} [DecidableEq α] (l : List (α × β)) {a a' : α}
    (h : a' ≠ a) : lookupA (removeA l a) a' = lookupA l a' := by
  induction l with
  | nil => simp [removeA, lookupA]
  | cons hd tl ih =>
    obtain ⟨k, v⟩ := hd
    by_cases hk : k = a
    · subst hk
      simp [removeA, lookupA, Ne.symm h, ih]
    · simp [removeA, lookupA, hk, ih]

@[simp] theorem logOp_objects (st : Store) (o : Op) : (st.logOp o).objects = st.objects := rfl

@[simp] theorem logOp_faults (st : Store) (o : Op) : (st.logOp o).faults = st.faults := rfl

@[simp] theorem logOp_trace (st : Store) (o : Op) :
    (st.logOp o).trace = st.trace ++ [o] := rfl

/-- Induction principle for a successful retry loop: any relation that
holds across a successful body run and is preserved (to the left) by
conflicted body runs holds across the whole loop. -/
theorem retryOnConflictAux_ok_ind {fn : Store → StepRes × Store} {P : Store → Store → Prop}
    (hok : ∀ s t, fn s = (.err none, t) → P s t)
    (hconf : ∀ s t e, fn s = (.err (some e), t) → isConflict e = true →
      ∀ u, P t u → P s u) :
    ∀ n st st', retryOnConflictAux fn n st = (.err none, st') → P st st' := by
  intro n
  induction n with
  | zero =>
    intro st st' h
    simp [retryOnConflictAux] at h
  | succ n ih =>
    intro st st' h
    rcases hfn : fn st with ⟨r, t⟩
    cases r with
    | panicked m => simp [retryOnConflictAux, hfn] at h
    | err eo =>
      cases eo with
      | none =>
        simp only [retryOnConflictAux, hfn] at h
        obtain ⟨-, rfl⟩ := h
        exact hok st st' hfn
      | some e =>
        simp only [retryOnConflictAux, hfn] at h
        by_cases hc : isConflict e = true
        · rw [if_pos hc] at h
          cases n with
          | zero => simp at h
          | succ m => exact hconf st t e hfn hc st' (ih t st' h)
        · rw [if_neg hc] at h
          simp at h

/-- Induction principle over every outcome of a retry loop: any
reflexive, transitive relation that holds across each single body run
holds across the whole loop. -/
theorem retryOnConflictAux_all_ind {fn : Store → StepRes × Store} {Q : Store → Store → Prop}
    (hstep : ∀ s r t, fn s = (r, t) → Q s t)
    (hrefl : ∀ s, Q s s)
    (htrans : ∀ a b c, Q a b → Q b c → Q a c) :
    ∀ n st r st', retryOnConflictAux fn n st = (r, st') → Q st st' := by
  intro n
  induction n with
  | zero =>
    intro st r st' h
    simp only [retryOnConflictAux, Prod.mk.injEq] at h
    obtain ⟨-, rfl⟩ := h
    exact hrefl st
  | succ n ih =>
    intro st r st' h
    rcases hfn : fn st with ⟨r0, t⟩
    cases r0 with
    | panicked m =>
      simp only [retryOnConflictAux, hfn, Prod.mk.injEq] at h
      obtain ⟨-, rfl⟩ := h
      exact hstep st _ _ hfn
    | err eo =>
      cases eo with
      | none =>
        simp only [retryOnConflictAux, hfn, Prod.mk.injEq] at h
        obtain ⟨-, rfl⟩ := h
        exact hstep st _ _ hfn
      | some e =>
        simp only [retryOnConflictAux, hfn] at h
        by_cases hc : isConflict e = true
        · rw [if_pos hc] at h
          cases n with
          | zero =>
            simp only [Prod.mk.injEq] at h
            obtain ⟨-, rfl⟩ := h
            exact hstep st _ _ hfn
          | succ m =>
            exact htrans st t st' (hstep st _ t hfn) (ih t r st' h)
        · rw [if_neg hc] at h
          simp only [Prod.mk.injEq] at h
          obtain ⟨-, rfl⟩ := h
          exact hstep st _ _ hfn

theorem rawGet_found {st : Store} {k : RKey} {d : UDoc} (h : lookupA st.objects k = some d) :
    st.rawGet k = (.ok d, st.logOp (Op.get k)) := by
  unfold Store.rawGet
  simp only [logOp_objects, h]

theorem rawGet_missing {st : Store} {k : RKey} (h : lookupA st.objects k = none) :
    st.rawGet k = (.error .notFound, st.logOp (Op.get k)) := by
  unfold Store.rawGet
  simp only [logOp_objects, h]

theorem rawCreate_free {st : Store} {k : RKey} (d : UDoc)
    (h : lookupA st.objects k = none) :
    st.rawCreate k d =
      (.ok d, ⟨insertA st.objects k d, st.faults, st.trace ++ [Op.create k d]⟩) := by
  unfold Store.rawCreate
  simp only [logOp_objects, h]
  rfl

theorem rawCreate_taken {st : Store} {k : RKey} (d : UDoc) {d0 : UDoc}
    (h : lookupA st.objects k = some d0) :
    st.rawCreate k d = (.error .alreadyExists, st.logOp (Op.create k d)) := by
  unfold Store.rawCreate
  simp only [logOp_objects, h]

theorem rawUpdate_missing {st : Store} {k : RKey} (d : UDoc)
    (h : lookupA st.objects k = none) :
    st.rawUpdate k d = (.error .notFound, st.logOp (Op.update k d)) := by
  unfold Store.rawUpdate
  simp only [logOp_objects, h]

theorem rawUpdate_clean {st : Store} {k : RKey} (d : UDoc) {d0 : UDoc}
    (h : lookupA st.objects k = some d0) (hf : st.faults = []) :
    st.rawUpdate k d =
      (.ok d, ⟨insertA st.objects k d, [], st.trace ++ [Op.update k d]⟩) := by
  unfold Store.rawUpdate
  simp only [logOp_objects, logOp_faults, h, hf]
  rfl

theorem rawUpdate_conflict {st : Store} {k : RKey} (d : UDoc) {d0 f : UDoc} {rest : List UDoc}
    (h : lookupA st.objects k = some d0) (hf : st.faults = f :: rest) :
    st.rawUpdate k d =
      (.error .conflict, ⟨insertA st.objects k f, rest, st.trace ++ [Op.update k d]⟩) := by
  unfold Store.rawUpdate
  simp only [logOp_objects, logOp_faults, h, hf]
  rfl

theorem rawDelete_found {st : Store} {k : RKey} {d0 : UDoc}
    (h : lookupA st.objects k = some d0) :
    st.rawDelete k = (none, ⟨removeA st.objects k, st.faults, st.trace ++ [Op.delete k]⟩) := by
  unfold Store.rawDelete
  simp only [logOp_objects, h]
  rfl

theorem rawDelete_missing {st : Store} {k : RKey}
    (h : lookupA st.objects k = none) :
    st.rawDelete k = (some .notFound, st.logOp (Op.delete k)) := by
  unfold Store.rawDelete
  simp only [logOp_objects, h]

theorem GetResource_found {st : Store} {ref : ObjRef} {d : UDoc}
    (h : lookupA st.objects (keyOf ref) = some d) :
    GetResource st ref = ((some d, true, none), st.logOp (Op.get (keyOf ref))) := by
  unfold GetResource
  rw [rawGet_found h]

theorem GetResource_missing {st : Store} {ref : ObjRef}
    (h : lookupA st.objects (keyOf ref) = none) :
    GetResource st ref = ((none, false, none), st.logOp (Op.get (keyOf ref))) := by
  unfold GetResource
  rw [rawGet_missing h]
  rfl

theorem CreateResource_free {st : Store} {ref : ObjRef} (u : UDoc)
    (h : lookupA st.objects (keyOf ref) = none) :
    CreateResource st ref u =
      (.ok u, ⟨insertA st.objects (keyOf ref) u, st.faults,
               st.trace ++ [Op.create (keyOf ref) u]⟩) := by
  unfold CreateResource
  rw [rawCreate_free u h]

/-- One run of the composite-repair body only touches the composite's
key and only issues gets and updates of that key. -/
theorem updateCompositeBody_step {key : RKey} {xrcu : UDoc} {s : Store} {r : StepRes} {t : Store}
    (h : updateCompositeBody key xrcu s = (r, t)) :
    (∀ k, k ≠ key → lookupA t.objects k = lookupA s.objects k) ∧
    (∃ e, t.trace = s.trace ++ e ∧
      ∀ op ∈ e, op = Op.get key ∨ ∃ d, op = Op.update key d) := by
  unfold updateCompositeBody at h
  cases hl : lookupA s.objects key with
  | none =>
    rw [rawGet_missing hl] at h
    simp only [Prod.mk.injEq] at h
    obtain ⟨rfl, rfl⟩ := h
    refine ⟨fun k hk => by simp, [Op.get key], by simp, ?_⟩
    intro op hop
    simp at hop
    subst hop
    exact Or.inl rfl
  | some xru =>
    rw [rawGet_found hl] at h
    cases hlb : xru.labels with
    | none =>
      simp only [goMapAssign, hlb, Prod.mk.injEq] at h
      obtain ⟨rfl, rfl⟩ := h
      refine ⟨fun k hk => by simp, [Op.get key], by simp, ?_⟩
      intro op hop
      simp at hop
      subst hop
      exact Or.inl rfl
    | some l =>
      simp only [goMapAssign, hlb] at h
      unfold Store.rawUpdate at h
      simp only [logOp_objects, logOp_faults, hl] at h
      cases hf : s.faults with
      | nil =>
        simp only [hf, Prod.mk.injEq] at h
        obtain ⟨rfl, rfl⟩ := h
        constructor
        · intro k hk
          simpa using lookupA_insertA_ne s.objects _ hk
        · refine ⟨[Op.get key, Op.update key (compositeTransform xru xrcu l)],
            by simp [compositeTransform], ?_⟩
          intro op hop
          simp at hop
          rcases hop with rfl | rfl
          · exact Or.inl rfl
          · exact Or.inr ⟨_, rfl⟩
      | cons f rest =>
        simp only [hf, Prod.mk.injEq] at h
        obtain ⟨rfl, rfl⟩ := h
        constructor
        · intro k hk
          simpa using lookupA_insertA_ne s.objects _ hk
        · refine ⟨[Op.get key, Op.update key (compositeTransform xru xrcu l)],
            by simp [compositeTransform], ?_⟩
          intro op hop
          simp at hop
          rcases hop with rfl | rfl
          · exact Or.inl rfl
          · exact Or.inr ⟨_, rfl⟩

/-- A successful run of the composite-repair body stored the
transformed document computed from the composite it had just fetched. -/
theorem updateCompositeBody_ok {key : RKey} {xrcu : UDoc} {s t : Store}
    (h : updateCompositeBody key xrcu s = (.err none, t)) :
    ∃ xru l, lookupA s.objects key = some xru ∧ xru.labels = some l ∧
      t.objects = insertA s.objects key (compositeTransform xru xrcu l) := by
  unfold updateCompositeBody at h
  cases hl : lookupA s.objects key with
  | none =>
    rw [rawGet_missing hl] at h
    simp at h
  | some xru =>
    rw [rawGet_found hl] at h
    cases hlb : xru.labels with
    | none => simp [goMapAssign, hlb] at h
    | some l =>
      simp only [goMapAssign, hlb] at h
      unfold Store.rawUpdate at h
      simp only [logOp_objects, logOp_faults, hl] at h
      cases hf : s.faults with
      | nil =>
        simp only [hf, Prod.mk.injEq] at h
        obtain ⟨-, rfl⟩ := h
        exact ⟨xru, l, rfl, hlb, rfl⟩
      | cons f rest => simp [hf] at h

/-- If the whole conflict-retried composite repair returns nil, the
composite's key holds the transform of a freshly fetched composite, and
every other key is untouched. -/
theorem updateComposite_ok {st : Store} {xref : ObjRef} {xrcu : UDoc} {st' : Store}
    (h : UpdateCompositeWithNewClaim st (some xref) xrcu = (.err none, st')) :
    (∃ xru l, xru.labels = some l ∧
      lookupA st'.objects (clusterKeyOf xref) = some (compositeTransform xru xrcu l)) ∧
    (∀ k, k ≠ clusterKeyOf xref → lookupA st'.objects k = lookupA st.objects k) := by
  have h' : RetryOnConflict (updateCompositeBody (clusterKeyOf xref) xrcu) st =
      (.err none, st') := h
  unfold RetryOnConflict at h'
  refine retryOnConflictAux_ok_ind
    (P := fun s u =>
      (∃ xru l, xru.labels = some l ∧
        lookupA u.objects (clusterKeyOf xref) = some (compositeTransform xru xrcu l)) ∧
      (∀ k, k ≠ clusterKeyOf xref → lookupA u.objects k = lookupA s.objects k))
    ?_ ?_ DefaultRetrySteps st st' h'
  · intro s t hb
    obtain ⟨xru, l, hlk, hlb, hobj⟩ := updateCompositeBody_ok hb
    constructor
    · refine ⟨xru, l, hlb, ?_⟩
      rw [hobj]
      exact lookupA_insertA_self ..
    · intro k hk
      rw [hobj]
      exact lookupA_insertA_ne _ _ hk
  · intro s t e hb hc u hPu
    obtain ⟨hframe, -⟩ := updateCompositeBody_step hb
    exact ⟨hPu.1, fun k hk => (hPu.2 k hk).trans (hframe k hk)⟩

/-- One run of the severance body only touches the claim's key and only
issues gets of that key and updates writing a cleared document (empty
finalizers, no composite reference). -/
theorem deleteUpdateBody_step {key : RKey} {s : Store} {r : StepRes} {t : Store}
    (h : deleteUpdateBody key s = (r, t)) :
    (∀ k, k ≠ key → lookupA t.objects k = lookupA s.objects k) ∧
    (∃ e, t.trace = s.trace ++ e ∧
      ∀ op ∈ e, op = Op.get key ∨ ∃ u, op = Op.update key (clearTransform u)) := by
  unfold deleteUpdateBody at h
  cases hl : lookupA s.objects key with
  | none =>
    rw [rawGet_missing hl] at h
    simp only [Prod.mk.injEq] at h
    obtain ⟨rfl, rfl⟩ := h
    refine ⟨fun k hk => by simp, [Op.get key], by simp, ?_⟩
    intro op hop
    simp at hop
    subst hop
    exact Or.inl rfl
  | some u0 =>
    rw [rawGet_found hl] at h
    unfold Store.rawUpdate at h
    simp only [logOp_objects, logOp_faults, hl] at h
    cases hf : s.faults with
    | nil =>
      simp only [hf, Prod.mk.injEq] at h
      obtain ⟨rfl, rfl⟩ := h
      constructor
      · intro k hk
        simpa using lookupA_insertA_ne s.objects _ hk
      · refine ⟨[Op.get key, Op.update key (clearTransform u0)], by simp [clearTransform], ?_⟩
        intro op hop
        simp at hop
        rcases hop with rfl | rfl
        · exact Or.inl rfl
        · exact Or.inr ⟨u0, rfl⟩
    | cons f rest =>
      simp only [hf, Prod.mk.injEq] at h
      obtain ⟨rfl, rfl⟩ := h
      constructor
      · intro k hk
        simpa using lookupA_insertA_ne s.objects _ hk
      · refine ⟨[Op.get key, Op.update key (clearTransform u0)], by simp [clearTransform], ?_⟩
        intro op hop
        simp at hop
        rcases hop with rfl | rfl
        · exact Or.inl rfl
        · exact Or.inr ⟨u0, rfl⟩

/-- A successful run of the severance body stored the cleared copy of
the claim it had just fetched. -/
theorem deleteUpdateBody_ok {key : RKey} {s t : Store}
    (h : deleteUpdateBody key s = (.err none, t)) :
    ∃ u0, lookupA s.objects key = some u0 ∧
      t.objects = insertA s.objects key (clearTransform u0) ∧
      t.trace = (s.trace ++ [Op.get key]) ++ [Op.update key (clearTransform u0)] := by
  unfold deleteUpdateBody at h
  cases hl : lookupA s.objects key with
  | none =>
    rw [rawGet_missing hl] at h
    simp at h
  | some u0 =>
    rw [rawGet_found hl] at h
    unfold Store.rawUpdate at h
    simp only [logOp_objects, logOp_faults, hl] at h
    cases hf : s.faults with
    | nil =>
      simp only [hf, Prod.mk.injEq] at h
      obtain ⟨-, rfl⟩ := h
      exact ⟨u0, rfl, rfl, rfl⟩
    | cons f rest => simp [hf] at h

/-- One run of the deletion body only touches the claim's key; its trace
contribution is a re-fetch, optionally followed immediately by the
delete. -/
theorem deleteDeleteBody_step {key : RKey} {s : Store} {r : StepRes} {t : Store}
    (h : deleteDeleteBody key s = (r, t)) :
    (∀ k, k ≠ key → lookupA t.objects k = lookupA s.objects k) ∧
    (∃ e, t.trace = s.trace ++ e ∧
      (e = [Op.get key] ∨ e = [Op.get key, Op.delete key])) := by
  unfold deleteDeleteBody at h
  cases hl : lookupA s.objects key with
  | none =>
    rw [rawGet_missing hl] at h
    simp only [Prod.mk.injEq] at h
    obtain ⟨rfl, rfl⟩ := h
    exact ⟨fun k hk => by simp, [Op.get key], by simp, Or.inl rfl⟩
  | some u0 =>
    rw [rawGet_found hl] at h
    unfold Store.rawDelete at h
    simp only [logOp_objects, hl] at h
    simp only [Prod.mk.injEq] at h
    obtain ⟨rfl, rfl⟩ := h
    constructor
    · intro k hk
      simpa using lookupA_removeA_ne s.objects hk
    · exact ⟨[Op.get key, Op.delete key], by simp, Or.inr rfl⟩

/-- A successful run of the deletion body removed the claim. -/
theorem deleteDeleteBody_ok {key : RKey} {s t : Store}
    (h : deleteDeleteBody key s = (.err none, t)) :
    t.objects = removeA s.objects key := by
  unfold deleteDeleteBody at h
  cases hl : lookupA s.objects key with
  | none =>
    rw [rawGet_missing hl] at h
    simp at h
  | some u0 =>
    rw [rawGet_found hl] at h
    unfold Store.rawDelete at h
    simp only [logOp_objects, hl] at h
    simp only [Prod.mk.injEq] at h
    obtain ⟨-, rfl⟩ := h
    rfl

/-- The deletion body never fails with a conflict. -/
theorem deleteDeleteBody_err {key : RKey} {s t : Store} {e : ErrVal}
    (h : deleteDeleteBody key s = (.err (some e), t)) : e = .notFound := by
  unfold deleteDeleteBody at h
  cases hl : lookupA s.objects key with
  | none =>
    rw [rawGet_missing hl] at h
    simp only [Prod.mk.injEq, StepRes.err.injEq, Option.some.injEq] at h
    exact h.1.symm
  | some u0 =>
    rw [rawGet_found hl] at h
    unfold Store.rawDelete at h
    simp only [logOp_objects, hl] at h
    simp at h

/-- The severance phase (every outcome) leaves all keys other than the
claim's untouched. -/
theorem deleteSourceUpdatePhase_frame {key : RKey} {st : Store} {r : StepRes} {st' : Store}
    (h : deleteSourceUpdatePhase key st = (r, st')) :
    ∀ k, k ≠ key → lookupA st'.objects k = lookupA st.objects k := by
  unfold deleteSourceUpdatePhase RetryOnConflict at h
  refine retryOnConflictAux_all_ind
    (Q := fun s u => ∀ k, k ≠ key → lookupA u.objects k = lookupA s.objects k)
    ?_ ?_ ?_ DefaultRetrySteps st r st' h
  · intro s r0 t hb
    exact (deleteUpdateBody_step hb).1
  · intro s k hk
    rfl
  · intro a b c h1 h2 k hk
    exact (h2 k hk).trans (h1 k hk)

/-- A successful deletion phase removed the claim and left every other
key untouched. -/
theorem deleteSourceDeletePhase_ok {key : RKey} {st st' : Store}
    (h : deleteSourceDeletePhase key st = (.err none, st')) :
    lookupA st'.objects key = none ∧
    (∀ k, k ≠ key → lookupA st'.objects k = lookupA st.objects k) := by
  unfold deleteSourceDeletePhase RetryOnConflict at h
  refine retryOnConflictAux_ok_ind
    (P := fun s u => lookupA u.objects key = none ∧
      (∀ k, k ≠ key → lookupA u.objects k = lookupA s.objects k))
    ?_ ?_ DefaultRetrySteps st st' h
  · intro s t hb
    have hobj := deleteDeleteBody_ok hb
    constructor
    · rw [hobj]
      exact lookupA_removeA_self ..
    · intro k hk
      rw [hobj]
      exact lookupA_removeA_ne _ hk
  · intro s t e hb hc u hPu
    have he := deleteDeleteBody_err hb
    subst he
    simp [isConflict] at hc

/-- A successful DeleteSourceClaim removed the claim and left every
other key untouched. -/
theorem deleteSourceClaim_ok {st : Store} {ref : ObjRef} {st' : Store}
    (h : DeleteSourceClaim st ref = (.err none, st')) :
    lookupA st'.objects (keyOf ref) = none ∧
    (∀ k, k ≠ keyOf ref → lookupA st'.objects k = lookupA st.objects k) := by
  simp only [DeleteSourceClaim] at h
  rcases hp1 : deleteSourceUpdatePhase (keyOf ref) st with ⟨r1, st1⟩
  rw [hp1] at h
  have hfr1 := deleteSourceUpdatePhase_frame hp1
  cases r1 with
  | panicked m => simp at h
  | err eo =>
    cases eo with
    | some e => simp at h
    | none =>
      simp only at h
      obtain ⟨hnone, hfr2⟩ := deleteSourceDeletePhase_ok h
      exact ⟨hnone, fun k hk => (hfr2 k hk).trans (hfr1 k hk)⟩

/-- Trace contributions of a retry loop: the concatenation of the body
attempts' contributions, so any per-operation property of the body's
contributions holds for the loop's. -/
theorem retryOnConflictAux_trace {fn : Store → StepRes × Store} {P : Op → Prop}
    (hbody : ∀ s r t, fn s = (r, t) → ∃ e, t.trace = s.trace ++ e ∧ ∀ op ∈ e, P op) :
    ∀ n st r st', retryOnConflictAux fn n st = (r, st') →
      ∃ e, st'.trace = st.trace ++ e ∧ ∀ op ∈ e, P op := by
  intro n st r st' h
  refine retryOnConflictAux_all_ind
    (Q := fun s u => ∃ e, u.trace = s.trace ++ e ∧ ∀ op ∈ e, P op)
    hbody ?_ ?_ n st r st' h
  · intro s
    exact ⟨[], by simp, by simp⟩
  · rintro a b c ⟨e1, hb1, hp1⟩ ⟨e2, hb2, hp2⟩
    refine ⟨e1 ++ e2, ?_, ?_⟩
    · rw [hb2, hb1, List.append_assoc]
    · intro op hop
      rcases List.mem_append.mp hop with h1 | h2
      · exact hp1 op h1
      · exact hp2 op h2

/-- The composite repair issues no create operation. -/
theorem updateComposite_trace {st : Store} {xr : Option ObjRef} {xrcu : UDoc} {r : StepRes}
    {st' : Store} (h : UpdateCompositeWithNewClaim st xr xrcu = (r, st')) :
    ∃ e, st'.trace = st.trace ++ e ∧ ∀ op ∈ e, op.isCreate = false := by
  cases xr with
  | none =>
    simp only [UpdateCompositeWithNewClaim, Prod.mk.injEq] at h
    obtain ⟨-, rfl⟩ := h
    exact ⟨[], by simp, by simp⟩
  | some ref =>
    simp only [UpdateCompositeWithNewClaim, RetryOnConflict] at h
    refine retryOnConflictAux_trace ?_ DefaultRetrySteps st r st' h
    intro s r0 t hb
    obtain ⟨-, e, he, hops⟩ := updateCompositeBody_step hb
    refine ⟨e, he, ?_⟩
    intro op hop
    rcases hops op hop with rfl | ⟨d, rfl⟩ <;> rfl

/-- The source retirement issues no create operation. -/
theorem deleteSourceClaim_trace {st : Store} {ref : ObjRef} {r : StepRes} {st' : Store}
    (h : DeleteSourceClaim st ref = (r, st')) :
    ∃ e, st'.trace = st.trace ++ e ∧ ∀ op ∈ e, op.isCreate = false := by
  simp only [DeleteSourceClaim] at h
  rcases hp1 : deleteSourceUpdatePhase (keyOf ref) st with ⟨r1, st1⟩
  rw [hp1] at h
  have htr1 : ∃ e, st1.trace = st.trace ++ e ∧ ∀ op ∈ e, op.isCreate = false := by
    unfold deleteSourceUpdatePhase RetryOnConflict at hp1
    refine retryOnConflictAux_trace ?_ DefaultRetrySteps st r1 st1 hp1
    intro s r0 t hb
    obtain ⟨-, e, he, hops⟩ := deleteUpdateBody_step hb
    refine ⟨e, he, ?_⟩
    intro op hop
    rcases hops op hop with rfl | ⟨u, rfl⟩ <;> rfl
  obtain ⟨e1, he1, hops1⟩ := htr1
  cases r1 with
  | panicked m =>
    simp only [Prod.mk.injEq] at h
    obtain ⟨-, rfl⟩ := h
    exact ⟨e1, he1, hops1⟩
  | err eo =>
    cases eo with
    | some e =>
      simp only [Prod.mk.injEq] at h
      obtain ⟨-, rfl⟩ := h
      exact ⟨e1, he1, hops1⟩
    | none =>
      simp only at h
      have htr2 : ∃ e, st'.trace = st1.trace ++ e ∧ ∀ op ∈ e, op.isCreate = false := by
        unfold deleteSourceDeletePhase RetryOnConflict at h
        refine retryOnConflictAux_trace ?_ DefaultRetrySteps st1 _ st' h
        intro s r0 t hb
        obtain ⟨-, e, he, hshape⟩ := deleteDeleteBody_step hb
        refine ⟨e, he, ?_⟩
        intro op hop
        rcases hshape with rfl | rfl <;> simp at hop
        · subst hop
          rfl
        · rcases hop with rfl | rfl <;> rfl
      obtain ⟨e2, he2, hops2⟩ := htr2
      refine ⟨e1 ++ e2, by rw [he2, he1, List.append_assoc], ?_⟩
      intro op hop
      rcases List.mem_append.mp hop with h1 | h2
      · exact hops1 op h1
      · exact hops2 op h2

/-- The tail of the orchestrator after creation issues no further create
operation. -/
theorem runRepair_trace (srcRef : ObjRef) (dst : UDoc) (st : Store) :
    ∃ e, (Cmd.runRepair srcRef dst st).2.trace = st.trace ++ e ∧
      ∀ op ∈ e, op.isCreate = false := by
  simp only [Cmd.runRepair]
  rcases hu : UpdateCompositeWithNewClaim st dst.resourceRef dst with ⟨ur, st1⟩
  obtain ⟨e1, he1, hops1⟩ := updateComposite_trace hu
  cases ur with
  | panicked m => exact ⟨e1, he1, hops1⟩
  | err eo =>
    cases eo with
    | some e => exact ⟨e1, he1, hops1⟩
    | none =>
      simp only [Cmd.runRetire]
      rcases hd : DeleteSourceClaim st1 srcRef with ⟨dr, st2⟩
      obtain ⟨e2, he2, hops2⟩ := deleteSourceClaim_trace hd
      have hcomb : st2.trace = st.trace ++ (e1 ++ e2) := by
        rw [he2, he1, List.append_assoc]
      have hopsc : ∀ op ∈ e1 ++ e2, Op.isCreate op = false := by
        intro op hop
        rcases List.mem_append.mp hop with h1 | h2
        · exact hops1 op h1
        · exact hops2 op h2
      cases dr with
      | panicked m => exact ⟨e1 ++ e2, hcomb, hopsc⟩
      | err eo2 =>
        cases eo2 with
        | some e => exact ⟨e1 ++ e2, hcomb, hopsc⟩
        | none => exact ⟨e1 ++ e2, hcomb, hopsc⟩

/-- GetResource only appends a get to the trace. -/
theorem GetResource_store (st : Store) (ref : ObjRef) :
    (GetResource st ref).2 = st.logOp (Op.get (keyOf ref)) := by
  unfold GetResource
  cases hl : lookupA st.objects (keyOf ref) with
  | some d =>
    rw [rawGet_found hl]
  | none =>
    rw [rawGet_missing hl]
    simp [isNotFound]

theorem trace_of_getResource {st : Store} {ref : ObjRef}
    {p : Option UDoc × Bool × Option ErrVal} {st1 : Store}
    (heq : GetResource st ref = (p, st1)) :
    st1.trace = st.trace ++ [Op.get (keyOf ref)] := by
  have h2 := GetResource_store st ref
  rw [heq] at h2
  have h3 : st1 = st.logOp (Op.get (keyOf ref)) := h2
  rw [h3, logOp_trace]

/-- CreateResource only appends a create to the trace. -/
theorem trace_of_createResource {st : Store} {ref : ObjRef} {u : UDoc}
    {p : Except ErrVal UDoc} {st1 : Store}
    (heq : CreateResource st ref u = (p, st1)) :
    st1.trace = st.trace ++ [Op.create (keyOf ref) u] := by
  unfold CreateResource at heq
  cases hl : lookupA st.objects (keyOf ref) with
  | some d0 =>
    rw [rawCreate_taken u hl] at heq
    simp only [Prod.mk.injEq] at heq
    obtain ⟨-, rfl⟩ := heq
    rfl
  | none =>
    rw [rawCreate_free u hl] at heq
    simp only [Prod.mk.injEq] at heq
    obtain ⟨-, rfl⟩ := heq
    rfl

/-- The post-resolution stage of the orchestrator only extends the trace. -/
theorem runMigrate_trace (c : Cmd) (mp : RESTMapping) (name : String) (st : Store) :
    ∃ e, (Cmd.runMigrate c mp name st).2.trace = st.trace ++ e := by
  simp only [Cmd.runMigrate]
  rcases hg : GetResource st (mkClaimObjRef mp name c.Namespace) with ⟨⟨u1, re1, e1⟩, st1⟩
  have ht1 := trace_of_getResource hg
  cases e1 with
  | some e => exact ⟨_, ht1⟩
  | none =>
    cases re1 with
    | false => exact ⟨_, ht1⟩
    | true =>
      cases u1 with
      | none => exact ⟨_, ht1⟩
      | some srcClaim =>
        dsimp only
        rcases hg2 : GetResource st1 (mkClaimObjRef mp name c.DestNamespace)
          with ⟨⟨u2, re2, e2⟩, st2⟩
        have ht2 : st2.trace = st.trace ++
            ([Op.get (keyOf (mkClaimObjRef mp name c.Namespace))] ++
             [Op.get (keyOf (mkClaimObjRef mp name c.DestNamespace))]) := by
          rw [trace_of_getResource hg2, ht1, List.append_assoc]
        cases e2 with
        | some e => exact ⟨_, ht2⟩
        | none =>
          cases re2 with
          | true => exact ⟨_, ht2⟩
          | false =>
            dsimp only
            rcases hc : CreateResource st2 (mkClaimObjRef mp name c.DestNamespace)
                { srcClaim with ns := c.DestNamespace, resourceVersion := "" } with ⟨cr, st3⟩
            have ht3 : st3.trace = st.trace ++
                (([Op.get (keyOf (mkClaimObjRef mp name c.Namespace))] ++
                  [Op.get (keyOf (mkClaimObjRef mp name c.DestNamespace))]) ++
                 [Op.create (keyOf (mkClaimObjRef mp name c.DestNamespace))
                    { srcClaim with ns := c.DestNamespace, resourceVersion := "" }]) := by
              rw [trace_of_createResource hc, ht2, List.append_assoc]
            cases cr with
            | error e => exact ⟨_, ht3⟩
            | ok dstu =>
              dsimp only
              obtain ⟨e4, he4, -⟩ := runRepair_trace (mkClaimObjRef mp name c.Namespace) dstu st3
              refine ⟨([Op.get (keyOf (mkClaimObjRef mp name c.Namespace))] ++
                  [Op.get (keyOf (mkClaimObjRef mp name c.DestNamespace))] ++
                  [Op.create (keyOf (mkClaimObjRef mp name c.DestNamespace))
                    { srcClaim with ns := c.DestNamespace, resourceVersion := "" }]) ++ e4, ?_⟩
              rw [he4, ht3, List.append_assoc]

/-- The resolution stage of the orchestrator only extends the trace. -/
theorem runResolve_trace (c : Cmd) (mf : String → Except ErrVal RESTMapping) (st : Store) :
    ∃ e, (Cmd.runResolve c mf st).2.trace = st.trace ++ e := by
  simp only [Cmd.runResolve]
  rcases hp : c.getResourceAndName with e | ⟨res, name⟩
  · exact ⟨[], by simp⟩
  · dsimp only
    rcases hm : mf res with e | mapping
    · refine ⟨[], ?_⟩
      simp
    · by_cases hs : mapping.Scope = RESTScopeNameNamespace
      · obtain ⟨e4, he4⟩ := runMigrate_trace c mapping name st
        refine ⟨e4, ?_⟩
        dsimp only
        rw [if_neg (not_not_intro hs)]
        exact he4
      · refine ⟨[], ?_⟩
        dsimp only
        rw [if_pos hs]
        simp

/-- Every run's first remote call is the destination-namespace check:
the trace always begins with that get. -/
theorem run_trace_head (c : Cmd) (mf : String → Except ErrVal RESTMapping) (st : Store) :
    ∃ e, (Cmd.Run c mf st).2.trace = st.trace ++ Op.get (keyOf (nsRefOf c)) :: e := by
  simp only [Cmd.Run]
  rcases hg : GetResource st (nsRefOf c) with ⟨⟨u1, re1, e1⟩, st1⟩
  have ht1 := trace_of_getResource hg
  cases e1 with
  | some e => exact ⟨[], ht1⟩
  | none =>
    cases re1 with
    | false => exact ⟨[], ht1⟩
    | true =>
      obtain ⟨e2, he2⟩ := runResolve_trace c mf st1
      refine ⟨e2, ?_⟩
      show (Cmd.runResolve c mf st1).2.trace = _
      rw [he2, ht1]
      simp

/-- Evaluation of the composite-repair body: composite present, non-nil
labels, no interfering write scheduled. -/
theorem updateCompositeBody_eval_clean {key : RKey} {xrcu : UDoc} {st : Store} {x0 : UDoc}
    {l0 : List (String × String)}
    (hl : lookupA st.objects key = some x0) (hlb : x0.labels = some l0)
    (hf : st.faults = []) :
    updateCompositeBody key xrcu st =
      (.err none,
        ⟨insertA st.objects key (compositeTransform x0 xrcu l0), [],
         (st.trace ++ [Op.get key]) ++ [Op.update key (compositeTransform x0 xrcu l0)]⟩) := by
  unfold updateCompositeBody
  rw [rawGet_found hl]
  simp only [goMapAssign, hlb]
  unfold Store.rawUpdate
  simp only [logOp_objects, logOp_faults, logOp_trace, hl, hf]
  rfl

/-- Evaluation of the composite-repair body when an interfering write is
scheduled: the attempt conflicts and the interferer's document lands in
the store. -/
theorem updateCompositeBody_eval_conflict {key : RKey} {xrcu : UDoc} {st : Store} {x0 f : UDoc}
    {rest : List UDoc} {l0 : List (String × String)}
    (hl : lookupA st.objects key = some x0) (hlb : x0.labels = some l0)
    (hf : st.faults = f :: rest) :
    updateCompositeBody key xrcu st =
      (.err (some .conflict),
        ⟨insertA st.objects key f, rest,
         (st.trace ++ [Op.get key]) ++ [Op.update key (compositeTransform x0 xrcu l0)]⟩) := by
  unfold updateCompositeBody
  rw [rawGet_found hl]
  simp only [goMapAssign, hlb]
  unfold Store.rawUpdate
  simp only [logOp_objects, logOp_faults, logOp_trace, hl, hf]
  rfl

/-- Evaluation of the severance body with no interfering write. -/
theorem deleteUpdateBody_eval_clean {key : RKey} {st : Store} {x0 : UDoc}
    (hl : lookupA st.objects key = some x0) (hf : st.faults = []) :
    deleteUpdateBody key st =
      (.err none,
        ⟨insertA st.objects key (clearTransform x0), [],
         (st.trace ++ [Op.get key]) ++ [Op.update key (clearTransform x0)]⟩) := by
  unfold deleteUpdateBody
  rw [rawGet_found hl]
  unfold Store.rawUpdate
  simp only [logOp_objects, logOp_faults, logOp_trace, hl, hf]

/-- Evaluation of the severance body when an interfering write is
scheduled. -/
theorem deleteUpdateBody_eval_conflict {key : RKey} {st : Store} {x0 f : UDoc}
    {rest : List UDoc}
    (hl : lookupA st.objects key = some x0) (hf : st.faults = f :: rest) :
    deleteUpdateBody key st =
      (.err (some .conflict),
        ⟨insertA st.objects key f, rest,
         (st.trace ++ [Op.get key]) ++ [Op.update key (clearTransform x0)]⟩) := by
  unfold deleteUpdateBody
  rw [rawGet_found hl]
  unfold Store.rawUpdate
  simp only [logOp_objects, logOp_faults, logOp_trace, hl, hf]

theorem updCount_append (a b : List Op) : updCount (a ++ b) = updCount a + updCount b := by
  simp [updCount, List.filter_append]

/-- Retrying the composite repair under a schedule of `fs` interfering
writes (each with a usable label map), with enough budget: the loop
succeeds, performs exactly one update attempt per conflict plus the
final successful one, and commits the transform of the latest document
rather than any stale copy. -/
theorem updateCompositeRetry_schedule :
    ∀ (fs : List UDoc) (n : Nat) (st : Store) (key : RKey) (xrcu x0 : UDoc)
      (l0 : List (String × String)),
      st.faults = fs → fs.length + 1 ≤ n →
      lookupA st.objects key = some x0 → x0.labels = some l0 →
      (∀ f ∈ fs, ∃ lf, f.labels = some lf) →
      ∃ st' lf,
        retryOnConflictAux (updateCompositeBody key xrcu) n st = (.err none, st') ∧
        st'.faults = [] ∧
        (lastD fs x0).labels = some lf ∧
        lookupA st'.objects key = some (compositeTransform (lastD fs x0) xrcu lf) ∧
        updCount st'.trace = updCount st.trace + (fs.length + 1) := by
  intro fs
  induction fs with
  | nil =>
    intro n st key xrcu x0 l0 hf hn hl hlb hfs
    match n, hn with
    | m + 1, _ =>
      refine ⟨⟨insertA st.objects key (compositeTransform x0 xrcu l0), [],
        (st.trace ++ [Op.get key]) ++ [Op.update key (compositeTransform x0 xrcu l0)]⟩,
        l0, ?_, rfl, hlb, lookupA_insertA_self .., ?_⟩
      · simp only [retryOnConflictAux, updateCompositeBody_eval_clean hl hlb hf]
      · simp [updCount_append, updCount, Op.isUpdate]
  | cons f rest ih =>
    intro n st key xrcu x0 l0 hf hn hl hlb hfs
    match n, hn with
    | m + 1, hn =>
      have hm : rest.length + 1 ≤ m := by
        simp only [List.length_cons] at hn
        omega
      obtain ⟨lf1, hlf1⟩ := hfs f (by simp)
      obtain ⟨st', lf, hrun, hfa, hlast, hlook, hcnt⟩ :=
        ih m ⟨insertA st.objects key f, rest,
              (st.trace ++ [Op.get key]) ++ [Op.update key (compositeTransform x0 xrcu l0)]⟩
          key xrcu f lf1 rfl hm (lookupA_insertA_self ..) hlf1
          (fun g hg => hfs g (by simp [hg]))
      refine ⟨st', lf, ?_, hfa, hlast, hlook, ?_⟩
      · simp only [retryOnConflictAux, updateCompositeBody_eval_conflict hl hlb hf]
        match m, hm with
        | m2 + 1, _ =>
          simpa [isConflict] using hrun
      · rw [hcnt]
        have h2 : updCount ((st.trace ++ [Op.get key]) ++
            [Op.update key (compositeTransform x0 xrcu l0)]) = updCount st.trace + 1 := by
          simp [updCount_append, updCount, Op.isUpdate]
        simp only [h2] at hcnt ⊢
        simp [List.length_cons]
        omega

/-- Retrying the severance under a schedule of `fs` interfering writes,
with enough budget: the loop succeeds, performs exactly one update
attempt per conflict plus the final successful one, and commits the
cleared copy of the latest document. -/
theorem deleteUpdateRetry_schedule :
    ∀ (fs : List UDoc) (n : Nat) (st : Store) (key : RKey) (x0 : UDoc),
      st.faults = fs → fs.length + 1 ≤ n →
      lookupA st.objects key = some x0 →
      ∃ st',
        retryOnConflictAux (deleteUpdateBody key) n st = (.err none, st') ∧
        st'.faults = [] ∧
        lookupA st'.objects key = some (clearTransform (lastD fs x0)) ∧
        updCount st'.trace = updCount st.trace + (fs.length + 1) := by
  intro fs
  induction fs with
  | nil =>
    intro n st key x0 hf hn hl
    match n, hn with
    | m + 1, _ =>
      refine ⟨⟨insertA st.objects key (clearTransform x0), [],
        (st.trace ++ [Op.get key]) ++ [Op.update key (clearTransform x0)]⟩,
        ?_, rfl, lookupA_insertA_self .., ?_⟩
      · simp only [retryOnConflictAux, deleteUpdateBody_eval_clean hl hf]
      · simp [updCount_append, updCount, Op.isUpdate]
  | cons f rest ih =>
    intro n st key x0 hf hn hl
    match n, hn with
    | m + 1, hn =>
      have hm : rest.length + 1 ≤ m := by
        simp only [List.length_cons] at hn
        omega
      obtain ⟨st', hrun, hfa, hlook, hcnt⟩ :=
        ih m ⟨insertA st.objects key f, rest,
              (st.trace ++ [Op.get key]) ++ [Op.update key (clearTransform x0)]⟩
          key f rfl hm (lookupA_insertA_self ..)
      refine ⟨st', ?_, hfa, hlook, ?_⟩
      · simp only [retryOnConflictAux, deleteUpdateBody_eval_conflict hl hf]
        match m, hm with
        | m2 + 1, _ =>
          simpa [isConflict] using hrun
      · rw [hcnt]
        have h2 : updCount ((st.trace ++ [Op.get key]) ++
            [Op.update key (clearTransform x0)]) = updCount st.trace + 1 := by
          simp [updCount_append, updCount, Op.isUpdate]
        simp only [h2]
        simp [List.length_cons]
        omega

theorem ResourceExists_found {st : Store} {ref : ObjRef} {d : UDoc}
    (h : lookupA st.objects (keyOf ref) = some d) :
    (ResourceExists st ref).1 = (true, none) := by
  unfold ResourceExists
  rw [GetResource_found h]

theorem ResourceExists_missing {st : Store} {ref : ObjRef}
    (h : lookupA st.objects (keyOf ref) = none) :
    (ResourceExists st ref).1 = (false, none) := by
  unfold ResourceExists
  rw [GetResource_missing h]

/-- When the destination namespace is missing, the run stops at the very
first remote call with the formatted error. -/
theorem run_ns_missing {c : Cmd} {mf : String → Except ErrVal RESTMapping} {st : Store}
    (hns : lookupA st.objects (keyOf (nsRefOf c)) = none) :
    Cmd.Run c mf st =
      (.err (some (.msg (msgNamespaceMissing c.DestNamespace))),
       st.logOp (Op.get (keyOf (nsRefOf c)))) := by
  simp only [Cmd.Run, GetResource_missing hns]

/-- Reduction of a run through the namespace check and type resolution. -/
theorem run_resolves {c : Cmd} {mf : String → Except ErrVal RESTMapping} {st : Store}
    {res name : String} {mp : RESTMapping} {nsdoc : UDoc}
    (hns : lookupA st.objects (keyOf (nsRefOf c)) = some nsdoc)
    (hparse : c.getResourceAndName = .ok (res, name))
    (hmap : mf res = .ok mp)
    (hscope : mp.Scope = RESTScopeNameNamespace) :
    Cmd.Run c mf st = Cmd.runMigrate c mp name (st.logOp (Op.get (keyOf (nsRefOf c)))) := by
  simp only [Cmd.Run, GetResource_found hns, Cmd.runResolve, hparse, hmap]
  rw [if_neg (not_not_intro hscope)]

/-- Reduction of a run, under all preconditions, to the repair-and-retire
tail applied to the store that holds the freshly created destination
claim. -/
theorem run_reaches_create {c : Cmd} {mf : String → Except ErrVal RESTMapping} {st : Store}
    {res name : String} {mp : RESTMapping} {nsdoc d : UDoc}
    (hns : lookupA st.objects (keyOf (nsRefOf c)) = some nsdoc)
    (hparse : c.getResourceAndName = .ok (res, name))
    (hmap : mf res = .ok mp)
    (hscope : mp.Scope = RESTScopeNameNamespace)
    (hsrc : lookupA st.objects (keyOf (mkClaimObjRef mp name c.Namespace)) = some d)
    (hdst : lookupA st.objects (keyOf (mkClaimObjRef mp name c.DestNamespace)) = none) :
    Cmd.Run c mf st =
      Cmd.runRepair (mkClaimObjRef mp name c.Namespace)
        { d with ns := c.DestNamespace, resourceVersion := "" }
        ⟨insertA st.objects (keyOf (mkClaimObjRef mp name c.DestNamespace))
           { d with ns := c.DestNamespace, resourceVersion := "" },
         st.faults,
         (((st.trace ++ [Op.get (keyOf (nsRefOf c))])
            ++ [Op.get (keyOf (mkClaimObjRef mp name c.Namespace))])
            ++ [Op.get (keyOf (mkClaimObjRef mp name c.DestNamespace))])
            ++ [Op.create (keyOf (mkClaimObjRef mp name c.DestNamespace))
                 { d with ns := c.DestNamespace, resourceVersion := "" }]⟩ := by
  rw [run_resolves hns hparse hmap hscope]
  have hsrc1 : lookupA (st.logOp (Op.get (keyOf (nsRefOf c)))).objects
      (keyOf (mkClaimObjRef mp name c.Namespace)) = some d := hsrc
  have hdst2 : lookupA ((st.logOp (Op.get (keyOf (nsRefOf c)))).logOp
        (Op.get (keyOf (mkClaimObjRef mp name c.Namespace)))).objects
      (keyOf (mkClaimObjRef mp name c.DestNamespace)) = none := hdst
  have hdst3 : lookupA (((st.logOp (Op.get (keyOf (nsRefOf c)))).logOp
        (Op.get (keyOf (mkClaimObjRef mp name c.Namespace)))).logOp
        (Op.get (keyOf (mkClaimObjRef mp name c.DestNamespace)))).objects
      (keyOf (mkClaimObjRef mp name c.DestNamespace)) = none := hdst
  simp only [Cmd.runMigrate, GetResource_found hsrc1, GetResource_missing hdst2,
    CreateResource_free _ hdst3]
  rfl

/-- Reduction of a run that aborts because the destination claim already
exists: the error is returned after the three gets, before any
mutation. -/
theorem run_dst_exists {c : Cmd} {mf : String → Except ErrVal RESTMapping} {st : Store}
    {res name : String} {mp : RESTMapping} {nsdoc d d2 : UDoc}
    (hns : lookupA st.objects (keyOf (nsRefOf c)) = some nsdoc)
    (hparse : c.getResourceAndName = .ok (res, name))
    (hmap : mf res = .ok mp)
    (hscope : mp.Scope = RESTScopeNameNamespace)
    (hsrc : lookupA st.objects (keyOf (mkClaimObjRef mp name c.Namespace)) = some d)
    (hdst : lookupA st.objects (keyOf (mkClaimObjRef mp name c.DestNamespace)) = some d2) :
    Cmd.Run c mf st =
      (.err (some (.msg (msgClaimAlreadyExists name c.DestNamespace))),
       ((st.logOp (Op.get (keyOf (nsRefOf c)))).logOp
          (Op.get (keyOf (mkClaimObjRef mp name c.Namespace)))).logOp
          (Op.get (keyOf (mkClaimObjRef mp name c.DestNamespace)))) := by
  rw [run_resolves hns hparse hmap hscope]
  have hsrc1 : lookupA (st.logOp (Op.get (keyOf (nsRefOf c)))).objects
      (keyOf (mkClaimObjRef mp name c.Namespace)) = some d := hsrc
  have hdst2 : lookupA ((st.logOp (Op.get (keyOf (nsRefOf c)))).logOp
        (Op.get (keyOf (mkClaimObjRef mp name c.Namespace)))).objects
      (keyOf (mkClaimObjRef mp name c.DestNamespace)) = some d2 := hdst
  simp only [Cmd.runMigrate, GetResource_found hsrc1, GetResource_found hdst2]

theorem delPrecededAux_append (key : RKey) (p : Option Op) (xs ys : List Op) :
    delPrecededAux key p (xs ++ ys)
      = (delPrecededAux key p xs && delPrecededAux key (lastCarry p xs) ys) := by
  induction xs generalizing p with
  | nil => simp [delPrecededAux, lastCarry]
  | cons op rest ih => simp [delPrecededAux, lastCarry, ih, Bool.and_assoc]

/-- Trace contribution of the deletion phase: only gets and deletes of
the claim's key, and every delete comes immediately after a get. -/
theorem deleteSourceDeletePhase_trace {key : RKey} {st : Store} {r : StepRes} {st' : Store}
    (h : deleteSourceDeletePhase key st = (r, st')) :
    ∃ e, st'.trace = st.trace ++ e ∧
      (∀ op ∈ e, op = Op.get key ∨ op = Op.delete key) ∧
      ∀ p, delPrecededAux key p e = true := by
  unfold deleteSourceDeletePhase RetryOnConflict at h
  refine retryOnConflictAux_all_ind
    (Q := fun s u => ∃ e, u.trace = s.trace ++ e ∧
      (∀ op ∈ e, op = Op.get key ∨ op = Op.delete key) ∧
      ∀ p, delPrecededAux key p e = true)
    ?_ ?_ ?_ DefaultRetrySteps st r st' h
  · intro s r0 t hb
    obtain ⟨-, e, he, hshape⟩ := deleteDeleteBody_step hb
    refine ⟨e, he, ?_, ?_⟩
    · intro op hop
      rcases hshape with rfl | rfl <;> simp at hop
      · exact Or.inl hop
      · rcases hop with rfl | rfl
        · exact Or.inl rfl
        · exact Or.inr rfl
    · intro p
      rcases hshape with rfl | rfl <;> simp [delPrecededAux]
  · intro s
    exact ⟨[], by simp, by simp, fun p => rfl⟩
  · rintro a b cc ⟨e1, hb1, hs1, hd1⟩ ⟨e2, hb2, hs2, hd2⟩
    refine ⟨e1 ++ e2, by rw [hb2, hb1, List.append_assoc], ?_, ?_⟩
    · intro op hop
      rcases List.mem_append.mp hop with h1 | h2
      · exact hs1 op h1
      · exact hs2 op h2
    · intro p
      rw [delPrecededAux_append, hd1 p, hd2]
      rfl

/-- Trace contribution of the severance phase: only gets of the claim's
key and updates writing the cleared document. -/
theorem deleteSourceUpdatePhase_trace {key : RKey} {st : Store} {r : StepRes} {st' : Store}
    (h : deleteSourceUpdatePhase key st = (r, st')) :
    ∃ e, st'.trace = st.trace ++ e ∧
      ∀ op ∈ e, op = Op.get key ∨ ∃ u, op = Op.update key (clearTransform u) := by
  unfold deleteSourceUpdatePhase RetryOnConflict at h
  refine retryOnConflictAux_trace ?_ DefaultRetrySteps st r st' h
  intro s r0 t hb
  exact (deleteUpdateBody_step hb).2

/-- A successful severance phase recorded at least one clearing update. -/
theorem deleteSourceUpdatePhase_ok_has_update {key : RKey} {st st' : Store}
    (h : deleteSourceUpdatePhase key st = (.err none, st')) :
    ∃ e, st'.trace = st.trace ++ e ∧ ∃ u, Op.update key (clearTransform u) ∈ e := by
  unfold deleteSourceUpdatePhase RetryOnConflict at h
  refine retryOnConflictAux_ok_ind
    (P := fun s u => ∃ e, u.trace = s.trace ++ e ∧ ∃ v, Op.update key (clearTransform v) ∈ e)
    ?_ ?_ DefaultRetrySteps st st' h
  · intro s t hb
    obtain ⟨u0, -, -, htr⟩ := deleteUpdateBody_ok hb
    exact ⟨[Op.get key] ++ [Op.update key (clearTransform u0)],
      by rw [htr, List.append_assoc], u0, by simp⟩
  · rintro s t e hb hc u ⟨e2, hb2, v, hv⟩
    obtain ⟨-, e1, hb1, -⟩ := deleteUpdateBody_step hb
    refine ⟨e1 ++ e2, by rw [hb2, hb1, List.append_assoc], v, ?_⟩
    exact List.mem_append.mpr (Or.inr hv)

/-- C9: token parsing is as specified on the four cases:
"kind.version.group/name" with no separate name yields
(type, name); "kind" with separate name "foo" yields (kind, foo);
"kind/name" with a separate name fails with the doubled-name error;
"kind" with no name fails with the missing-name error. -/
theorem getResourceAndName_spec :
    Cmd.getResourceAndName ⟨"kind.version.group/name", "default", "dest", ""⟩ =
      .ok ("kind.version.group", "name") ∧
    Cmd.getResourceAndName ⟨"kind", "default", "dest", "foo"⟩ = .ok ("kind", "foo") ∧
    Cmd.getResourceAndName ⟨"kind/name", "default", "dest", "foo"⟩ =
      .error (.msg errNameDoubled) ∧
    Cmd.getResourceAndName ⟨"kind", "default", "dest", ""⟩ =
      .error (.msg errMissingName) := by
  refine ⟨?_, ?_, ?_, ?_⟩ <;> rfl

/-- C2 (code bug): with the source claim absent the run aborts without
any mutation, but it returns a nil error rather than a non-nil
SourceNotFound error, because migrate.go wraps the nil `err` from the
tri-state GetResource (errors.Wrap of nil is nil). -/
theorem run_missing_source_returns_nil :
    (Cmd.Run exCmd exMapper exStoreNoSrc).1 = .err none ∧
    (Cmd.Run exCmd exMapper exStoreNoSrc).2.objects = exStoreNoSrc.objects ∧
    (Cmd.Run exCmd exMapper exStoreNoSrc).2.trace.filter Op.isMut = [] := by
  refine ⟨?_, ?_, ?_⟩ <;> decide

/-- C3 (code bug): with a cluster-scoped resolved type the run aborts
without any mutation, but it returns a nil error rather than a non-nil
NotNamespaced error, because migrate.go wraps the nil `err` from
MappingFor at the scope check (errors.Wrap of nil is nil). -/
theorem run_cluster_scoped_returns_nil :
    (Cmd.Run exCmd exMapperRoot exStore).1 = .err none ∧
    (Cmd.Run exCmd exMapperRoot exStore).2.objects = exStore.objects ∧
    (Cmd.Run exCmd exMapperRoot exStore).2.trace.filter Op.isMut = [] := by
  refine ⟨?_, ?_, ?_⟩ <;> decide

/-- C5: when the Get of the destination namespace reports not-found, the
run returns an error naming the missing namespace, leaves the store
untouched, and its only remote call is that get; moreover in every run
whatsoever the namespace check is the first remote call, so it precedes
every mutating call. -/
theorem run_missing_namespace_no_mutation {c : Cmd}
    {mf : String → Except ErrVal RESTMapping} {st : Store}
    (hns : lookupA st.objects (keyOf (nsRefOf c)) = none) :
    (Cmd.Run c mf st).1 = .err (some (.msg (msgNamespaceMissing c.DestNamespace))) ∧
    (Cmd.Run c mf st).2.objects = st.objects ∧
    (Cmd.Run c mf st).2.trace = st.trace ++ [Op.get (keyOf (nsRefOf c))] ∧
    (∀ (c2 : Cmd) (mf2 : String → Except ErrVal RESTMapping) (st2 : Store),
      ∃ e, (Cmd.Run c2 mf2 st2).2.trace = st2.trace ++ Op.get (keyOf (nsRefOf c2)) :: e) := by
  have h := @run_ns_missing c mf st hns
  refine ⟨?_, ?_, ?_, run_trace_head⟩
  · rw [h]
  · rw [h]
    rfl
  · rw [h]
    rfl

/-- Witness for C5 at the concrete fixture store without the destination
namespace. -/
theorem run_missing_namespace_no_mutation_witness :
    lookupA exStoreNoNs.objects (keyOf (nsRefOf exCmd)) = none ∧
    (Cmd.Run exCmd exMapper exStoreNoNs).1 =
      .err (some (.msg (msgNamespaceMissing exCmd.DestNamespace))) :=
  ⟨by decide, (run_missing_namespace_no_mutation (by decide)).1⟩

/-- C4: when the destination claim already exists and every earlier
check passes, the run returns the already-exists error after exactly
three gets — before any create, update or delete — leaving the store,
hence the source claim and the composite, unchanged. -/
theorem run_dst_exists_aborts {c : Cmd} {mf : String → Except ErrVal RESTMapping} {st : Store}
    {res name : String} {mp : RESTMapping} {nsdoc d d2 : UDoc}
    (hns : lookupA st.objects (keyOf (nsRefOf c)) = some nsdoc)
    (hparse : c.getResourceAndName = .ok (res, name))
    (hmap : mf res = .ok mp)
    (hscope : mp.Scope = RESTScopeNameNamespace)
    (hsrc : lookupA st.objects (keyOf (mkClaimObjRef mp name c.Namespace)) = some d)
    (hdst : lookupA st.objects (keyOf (mkClaimObjRef mp name c.DestNamespace)) = some d2) :
    (Cmd.Run c mf st).1 = .err (some (.msg (msgClaimAlreadyExists name c.DestNamespace))) ∧
    (Cmd.Run c mf st).2.objects = st.objects ∧
    (Cmd.Run c mf st).2.trace = st.trace ++
      [Op.get (keyOf (nsRefOf c)),
       Op.get (keyOf (mkClaimObjRef mp name c.Namespace)),
       Op.get (keyOf (mkClaimObjRef mp name c.DestNamespace))] := by
  have h := run_dst_exists hns hparse hmap hscope hsrc hdst
  refine ⟨by rw [h], by rw [h]; rfl, ?_⟩
  rw [h]
  simp

/-- Witness for C4 at the fixture store where the destination claim is
already taken. -/
theorem run_dst_exists_aborts_witness :
    lookupA exStoreDstTaken.objects (keyOf (mkClaimObjRef exMapping "a" exCmd.DestNamespace)) =
      some exSrcDoc ∧
    (Cmd.Run exCmd exMapper exStoreDstTaken).1 =
      .err (some (.msg (msgClaimAlreadyExists "a" exCmd.DestNamespace))) :=
  ⟨by decide,
   (@run_dst_exists_aborts exCmd exMapper exStoreDstTaken "tenants" "a" exMapping
      exNsDoc exSrcDoc exSrcDoc (by decide) rfl rfl rfl (by decide) (by decide)).1⟩

/-- C8: the document passed to Create for the destination — the run's
only create — is the source document with only its namespace rewritten
to the destination namespace and its resourceVersion cleared. -/
theorem run_creates_rewritten_copy {c : Cmd} {mf : String → Except ErrVal RESTMapping}
    {st : Store} {res name : String} {mp : RESTMapping} {nsdoc d : UDoc}
    (hns : lookupA st.objects (keyOf (nsRefOf c)) = some nsdoc)
    (hparse : c.getResourceAndName = .ok (res, name))
    (hmap : mf res = .ok mp)
    (hscope : mp.Scope = RESTScopeNameNamespace)
    (hsrc : lookupA st.objects (keyOf (mkClaimObjRef mp name c.Namespace)) = some d)
    (hdst : lookupA st.objects (keyOf (mkClaimObjRef mp name c.DestNamespace)) = none) :
    ∃ e, (Cmd.Run c mf st).2.trace = st.trace ++ e ∧
      e.filter Op.isCreate =
        [Op.create (keyOf (mkClaimObjRef mp name c.DestNamespace))
           { d with ns := c.DestNamespace, resourceVersion := "" }] := by
  have hrun := run_reaches_create hns hparse hmap hscope hsrc hdst
  obtain ⟨e4, he4, hops4⟩ := runRepair_trace (mkClaimObjRef mp name c.Namespace)
    { d with ns := c.DestNamespace, resourceVersion := "" }
    ⟨insertA st.objects (keyOf (mkClaimObjRef mp name c.DestNamespace))
       { d with ns := c.DestNamespace, resourceVersion := "" },
     st.faults,
     (((st.trace ++ [Op.get (keyOf (nsRefOf c))])
        ++ [Op.get (keyOf (mkClaimObjRef mp name c.Namespace))])
        ++ [Op.get (keyOf (mkClaimObjRef mp name c.DestNamespace))])
        ++ [Op.create (keyOf (mkClaimObjRef mp name c.DestNamespace))
             { d with ns := c.DestNamespace, resourceVersion := "" }]⟩
  refine ⟨([Op.get (keyOf (nsRefOf c)),
            Op.get (keyOf (mkClaimObjRef mp name c.Namespace)),
            Op.get (keyOf (mkClaimObjRef mp name c.DestNamespace)),
            Op.create (keyOf (mkClaimObjRef mp name c.DestNamespace))
              { d with ns := c.DestNamespace, resourceVersion := "" }] ++ e4), ?_, ?_⟩
  · rw [hrun, he4]
    simp
  · rw [List.filter_append]
    have h2 : e4.filter Op.isCreate = [] := by
      rw [List.filter_eq_nil_iff]
      intro a ha
      rw [hops4 a ha]
      simp
    rw [h2]
    simp [Op.isCreate]

/-- Witness for C8 at the fixture store. -/
theorem run_creates_rewritten_copy_witness :
    lookupA exStore.objects (keyOf (mkClaimObjRef exMapping "a" exCmd.Namespace)) =
      some exSrcDoc ∧
    ∃ e, (Cmd.Run exCmd exMapper exStore).2.trace = exStore.trace ++ e ∧
      e.filter Op.isCreate =
        [Op.create (keyOf (mkClaimObjRef exMapping "a" exCmd.DestNamespace))
           { exSrcDoc with ns := exCmd.DestNamespace, resourceVersion := "" }] :=
  ⟨by decide,
   @run_creates_rewritten_copy exCmd exMapper exStore "tenants" "a" exMapping
      exNsDoc exSrcDoc (by decide) rfl rfl rfl (by decide) (by decide)⟩

/-- C1: for a valid namespaced type, source claim present, destination
claim absent, destination namespace present and a non-empty source
namespace, a run that returns no error leaves the destination claim
fetchable, the source claim not-found, and the composite named by the
claim's resource reference carrying a claim-namespace label and a
claim-reference namespace that both equal the destination namespace. -/
theorem run_success_migrates {c : Cmd} {mf : String → Except ErrVal RESTMapping} {st : Store}
    {res name : String} {mp : RESTMapping} {nsdoc d : UDoc}
    (hns : lookupA st.objects (keyOf (nsRefOf c)) = some nsdoc)
    (hparse : c.getResourceAndName = .ok (res, name))
    (hmap : mf res = .ok mp)
    (hscope : mp.Scope = RESTScopeNameNamespace)
    (hsrc : lookupA st.objects (keyOf (mkClaimObjRef mp name c.Namespace)) = some d)
    (hdst : lookupA st.objects (keyOf (mkClaimObjRef mp name c.DestNamespace)) = none)
    (hnsne : c.Namespace ≠ "")
    (hok : (Cmd.Run c mf st).1 = .err none) :
    (ResourceExists (Cmd.Run c mf st).2 (mkClaimObjRef mp name c.DestNamespace)).1 =
      (true, none) ∧
    (ResourceExists (Cmd.Run c mf st).2 (mkClaimObjRef mp name c.Namespace)).1 =
      (false, none) ∧
    ∃ xref xd, d.resourceRef = some xref ∧
      lookupA (Cmd.Run c mf st).2.objects (clusterKeyOf xref) = some xd ∧
      xd.getLabel claimNamespaceLabel = some c.DestNamespace ∧
      ∃ cr, xd.claimRef = some cr ∧ cr.Namespace = c.DestNamespace := by
  have hrun := run_reaches_create hns hparse hmap hscope hsrc hdst
  rw [hrun] at hok ⊢
  simp only [Cmd.runRepair] at hok ⊢
  rcases hu : UpdateCompositeWithNewClaim
    ⟨insertA st.objects (keyOf (mkClaimObjRef mp name c.DestNamespace))
       { d with ns := c.DestNamespace, resourceVersion := "" },
     st.faults,
     (((st.trace ++ [Op.get (keyOf (nsRefOf c))])
        ++ [Op.get (keyOf (mkClaimObjRef mp name c.Namespace))])
        ++ [Op.get (keyOf (mkClaimObjRef mp name c.DestNamespace))])
        ++ [Op.create (keyOf (mkClaimObjRef mp name c.DestNamespace))
             { d with ns := c.DestNamespace, resourceVersion := "" }]⟩
    d.resourceRef { d with ns := c.DestNamespace, resourceVersion := "" } with ⟨ur, st5⟩
  rw [hu] at hok
  cases ur with
  | panicked m => simp at hok
  | err eo =>
    cases eo with
    | some e => simp [wrapErr] at hok
    | none =>
      simp only [Cmd.runRetire] at hok ⊢
      rcases hdel : DeleteSourceClaim st5 (mkClaimObjRef mp name c.Namespace) with ⟨dr, st6⟩
      rw [hdel] at hok
      cases dr with
      | panicked m => simp at hok
      | err eo2 =>
        cases eo2 with
        | some e => simp [wrapErr] at hok
        | none =>
          cases hrr : d.resourceRef with
          | none =>
            rw [hrr] at hu
            simp [UpdateCompositeWithNewClaim] at hu
          | some xref =>
            rw [hrr] at hu
            obtain ⟨⟨xru, l, hlbl, hxr5⟩, hfr45⟩ := updateComposite_ok hu
            obtain ⟨hgone, hfr56⟩ := deleteSourceClaim_ok hdel
            have hne_sd : keyOf (mkClaimObjRef mp name c.Namespace) ≠
                keyOf (mkClaimObjRef mp name c.DestNamespace) := by
              intro he
              rw [← he, hsrc] at hdst
              cases hdst
            have hne_xs : clusterKeyOf xref ≠ keyOf (mkClaimObjRef mp name c.Namespace) := by
              intro he
              have h2 : ("" : String) = c.Namespace := congrArg RKey.Ns he
              exact hnsne h2.symm
            have hxr6 : lookupA st6.objects (clusterKeyOf xref) =
                lookupA st5.objects (clusterKeyOf xref) := hfr56 _ hne_xs
            refine ⟨?_, ResourceExists_missing hgone, xref, _, rfl,
              by rw [hxr6]; exact hxr5, ?_, ⟨_, rfl, rfl⟩⟩
            · by_cases hdx : keyOf (mkClaimObjRef mp name c.DestNamespace) = clusterKeyOf xref
              · apply ResourceExists_found
                rw [hdx, hxr6]
                exact hxr5
              · apply ResourceExists_found
                rw [hfr56 _ (Ne.symm hne_sd), hfr45 _ hdx]
                exact lookupA_insertA_self ..
            · simp [compositeTransform, UDoc.getLabel, UDoc.getNamespace, lookupA_insertA_self]

/-- Witness for C1 at the fixture store where the migration succeeds. -/
theorem run_success_migrates_witness :
    (Cmd.Run exCmd exMapper exStore).1 = .err none ∧
    ((ResourceExists (Cmd.Run exCmd exMapper exStore).2
        (mkClaimObjRef exMapping "a" exCmd.DestNamespace)).1 = (true, none) ∧
     (ResourceExists (Cmd.Run exCmd exMapper exStore).2
        (mkClaimObjRef exMapping "a" exCmd.Namespace)).1 = (false, none) ∧
     ∃ xref xd, exSrcDoc.resourceRef = some xref ∧
       lookupA (Cmd.Run exCmd exMapper exStore).2.objects (clusterKeyOf xref) = some xd ∧
       xd.getLabel claimNamespaceLabel = some exCmd.DestNamespace ∧
       ∃ cr, xd.claimRef = some cr ∧ cr.Namespace = exCmd.DestNamespace) :=
  ⟨by decide,
   @run_success_migrates exCmd exMapper exStore "tenants" "a" exMapping exNsDoc exSrcDoc
     (by decide) rfl rfl rfl (by decide) (by decide) (by decide) (by decide)⟩

/-- C6: both conflict-safe mutations, on a version conflict, re-run the
full fetch-transform-update cycle and commit the transform of the
freshly fetched (latest) document, never a stale copy, using exactly one
update attempt per conflict plus the final one, within the five-attempt
budget; in particular a run whose composite update suffers exactly one
transient conflict and then succeeds returns no error. -/
theorem conflict_retry_spec :
    (∀ (st : Store) (xref : ObjRef) (xrcu x0 : UDoc) (l0 : List (String × String))
        (fs : List UDoc),
        st.faults = fs → fs.length ≤ 4 →
        lookupA st.objects (clusterKeyOf xref) = some x0 → x0.labels = some l0 →
        (∀ f ∈ fs, ∃ lf, f.labels = some lf) →
        ∃ st' lf, UpdateCompositeWithNewClaim st (some xref) xrcu = (.err none, st') ∧
          st'.faults = [] ∧
          (lastD fs x0).labels = some lf ∧
          lookupA st'.objects (clusterKeyOf xref) =
            some (compositeTransform (lastD fs x0) xrcu lf) ∧
          updCount st'.trace = updCount st.trace + (fs.length + 1) ∧
          fs.length + 1 ≤ DefaultRetrySteps) ∧
    (∀ (st : Store) (ref : ObjRef) (x0 : UDoc) (fs : List UDoc),
        st.faults = fs → fs.length ≤ 4 →
        lookupA st.objects (keyOf ref) = some x0 →
        ∃ st', deleteSourceUpdatePhase (keyOf ref) st = (.err none, st') ∧
          st'.faults = [] ∧
          lookupA st'.objects (keyOf ref) = some (clearTransform (lastD fs x0)) ∧
          updCount st'.trace = updCount st.trace + (fs.length + 1) ∧
          fs.length + 1 ≤ DefaultRetrySteps) ∧
    (Cmd.Run exCmd exMapper exStoreOneConflict).1 = .err none := by
  refine ⟨?_, ?_, by decide⟩
  · intro st xref xrcu x0 l0 fs hf hlen hl hlb hfs
    have hle : fs.length + 1 ≤ DefaultRetrySteps := by
      simp only [DefaultRetrySteps]
      omega
    obtain ⟨st', lf, hrun, hfa, hlast, hlook, hcnt⟩ :=
      updateCompositeRetry_schedule fs DefaultRetrySteps st (clusterKeyOf xref) xrcu x0 l0
        hf hle hl hlb hfs
    exact ⟨st', lf, hrun, hfa, hlast, hlook, hcnt, hle⟩
  · intro st ref x0 fs hf hlen hl
    have hle : fs.length + 1 ≤ DefaultRetrySteps := by
      simp only [DefaultRetrySteps]
      omega
    obtain ⟨st', hrun, hfa, hlook, hcnt⟩ :=
      deleteUpdateRetry_schedule fs DefaultRetrySteps st (keyOf ref) x0 hf hle hl
    exact ⟨st', hrun, hfa, hlook, hcnt, hle⟩

/-- Witness for C6: the composite mutator under exactly one scheduled
conflict, at the fixture composite. -/
theorem conflict_retry_spec_witness :
    exXROnly.faults = [exFault] ∧
    lookupA exXROnly.objects (clusterKeyOf exXRef) = some exXRDoc ∧
    (∃ st' lf,
      UpdateCompositeWithNewClaim exXROnly (some exXRef) exSrcDoc = (.err none, st') ∧
      st'.faults = [] ∧
      (lastD [exFault] exXRDoc).labels = some lf ∧
      lookupA st'.objects (clusterKeyOf exXRef) =
        some (compositeTransform (lastD [exFault] exXRDoc) exSrcDoc lf) ∧
      updCount st'.trace = updCount exXROnly.trace + ([exFault].length + 1) ∧
      [exFault].length + 1 ≤ DefaultRetrySteps) :=
  ⟨rfl, by decide,
   conflict_retry_spec.1 exXROnly exXRef exSrcDoc exXRDoc
     [("crossplane.io/claim-namespace", "src")] [exFault] rfl (by decide) (by decide) rfl
     (by
       intro f hf
       simp only [List.mem_singleton] at hf
       subst hf
       exact ⟨[("other", "lbl")], rfl⟩)⟩

/-- C7: in every execution of DeleteSourceClaim every issued update
writes a document with empty finalizers and a cleared composite
reference, deletes are issued only after the clearing phase has
returned nil (which implies a clearing update was issued earlier in the
trace), and every delete is immediately preceded by a re-fetch. -/
theorem delete_clear_precedes_delete (st : Store) (ref : ObjRef) :
    ∃ r1 st1 ext1 ext2,
      deleteSourceUpdatePhase (keyOf ref) st = (r1, st1) ∧
      st1.trace = st.trace ++ ext1 ∧
      (DeleteSourceClaim st ref).2.trace = st.trace ++ (ext1 ++ ext2) ∧
      (∀ op ∈ ext1, op = Op.get (keyOf ref) ∨
        ∃ u, op = Op.update (keyOf ref) u ∧ u.finalizers = [] ∧ u.resourceRef = none) ∧
      (∀ op ∈ ext2, op = Op.get (keyOf ref) ∨ op = Op.delete (keyOf ref)) ∧
      (ext2 ≠ [] → r1 = .err none) ∧
      (r1 = .err none →
        ∃ u, Op.update (keyOf ref) u ∈ ext1 ∧ u.finalizers = [] ∧ u.resourceRef = none) ∧
      (∀ p, delPrecededAux (keyOf ref) p ext2 = true) := by
  rcases hp1 : deleteSourceUpdatePhase (keyOf ref) st with ⟨r1, st1⟩
  obtain ⟨ext1, he1, hops1⟩ := deleteSourceUpdatePhase_trace hp1
  have hops1c : ∀ op ∈ ext1, op = Op.get (keyOf ref) ∨
      ∃ u, op = Op.update (keyOf ref) u ∧ u.finalizers = [] ∧ u.resourceRef = none := by
    intro op hop
    rcases hops1 op hop with rfl | ⟨u, rfl⟩
    · exact Or.inl rfl
    · exact Or.inr ⟨clearTransform u, rfl, rfl, rfl⟩
  have hupd : r1 = StepRes.err none →
      ∃ u, Op.update (keyOf ref) u ∈ ext1 ∧ u.finalizers = [] ∧ u.resourceRef = none := by
    intro hr
    subst hr
    obtain ⟨ee, hee, v, hv⟩ := deleteSourceUpdatePhase_ok_has_update hp1
    have hcan : ext1 = ee := List.append_cancel_left (he1.symm.trans hee)
    exact ⟨clearTransform v, by rw [hcan]; exact hv, rfl, rfl⟩
  have hds : DeleteSourceClaim st ref =
      (match (r1, st1) with
       | (.err none, s) => deleteSourceDeletePhase (keyOf ref) s
       | (r, s) => (r, s)) := by
    simp only [DeleteSourceClaim, hp1]
  cases r1 with
  | panicked m =>
    refine ⟨.panicked m, st1, ext1, [], rfl, he1, ?_, hops1c, by simp, by simp, hupd,
      fun p => rfl⟩
    rw [hds]
    dsimp only
    rw [he1]
    simp
  | err eo =>
    cases eo with
    | some e =>
      refine ⟨.err (some e), st1, ext1, [], rfl, he1, ?_, hops1c, by simp, by simp, hupd,
        fun p => rfl⟩
      rw [hds]
      dsimp only
      rw [he1]
      simp
    | none =>
      rcases hp2 : deleteSourceDeletePhase (keyOf ref) st1 with ⟨r2, st2⟩
      obtain ⟨ext2, he2, hops2, hdel2⟩ := deleteSourceDeletePhase_trace hp2
      refine ⟨.err none, st1, ext1, ext2, rfl, he1, ?_, hops1c, hops2, fun _ => rfl, hupd,
        hdel2⟩
      rw [hds]
      dsimp only
      rw [hp2]
      dsimp only
      rw [he2, he1, List.append_assoc]

/-- Witness for C7 at the fixture claim store. -/
theorem delete_clear_precedes_delete_witness :
    ∃ r1 st1 ext1 ext2,
      deleteSourceUpdatePhase (keyOf (mkClaimObjRef exMapping "a" "src")) exClaimOnly =
        (r1, st1) ∧
      st1.trace = exClaimOnly.trace ++ ext1 ∧
      (DeleteSourceClaim exClaimOnly (mkClaimObjRef exMapping "a" "src")).2.trace =
        exClaimOnly.trace ++ (ext1 ++ ext2) ∧
      (∀ op ∈ ext1, op = Op.get (keyOf (mkClaimObjRef exMapping "a" "src")) ∨
        ∃ u, op = Op.update (keyOf (mkClaimObjRef exMapping "a" "src")) u ∧
          u.finalizers = [] ∧ u.resourceRef = none) ∧
      (∀ op ∈ ext2, op = Op.get (keyOf (mkClaimObjRef exMapping "a" "src")) ∨
        op = Op.delete (keyOf (mkClaimObjRef exMapping "a" "src"))) ∧
      (ext2 ≠ [] → r1 = .err none) ∧
      (r1 = .err none →
        ∃ u, Op.update (keyOf (mkClaimObjRef exMapping "a" "src")) u ∈ ext1 ∧
          u.finalizers = [] ∧ u.resourceRef = none) ∧
      (∀ p, delPrecededAux (keyOf (mkClaimObjRef exMapping "a" "src")) p ext2 = true) :=
  delete_clear_precedes_delete exClaimOnly (mkClaimObjRef exMapping "a" "src")

/-- C10: the composite-repair body writes the claim-namespace key into
the label map obtained from the fetched composite without initializing
it: on a composite whose label map is nil the body panics with the Go
nil-map assignment error, and under the precondition that the composite
carries at least one label the write succeeds and preserves every label
other than crossplane.io/claim-namespace. -/
theorem composite_label_write_requires_labels :
    (∀ (st : Store) (key : RKey) (xrcu x0 : UDoc),
        lookupA st.objects key = some x0 → x0.labels = none →
        (updateCompositeBody key xrcu st).1 = .panicked nilMapMsg) ∧
    (∀ (st : Store) (key : RKey) (xrcu x0 : UDoc) (l : List (String × String)),
        lookupA st.objects key = some x0 → x0.labels = some l → l ≠ [] →
        st.faults = [] →
        ∃ st', updateCompositeBody key xrcu st = (.err none, st') ∧
          lookupA st'.objects key = some (compositeTransform x0 xrcu l) ∧
          ∀ k2, k2 ≠ claimNamespaceLabel →
            (compositeTransform x0 xrcu l).getLabel k2 = x0.getLabel k2) := by
  constructor
  · intro st key xrcu x0 hl hlb
    unfold updateCompositeBody
    rw [rawGet_found hl]
    simp [goMapAssign, hlb]
  · intro st key xrcu x0 l hl hlb hne hf
    refine ⟨_, updateCompositeBody_eval_clean hl hlb hf, lookupA_insertA_self .., ?_⟩
    intro k2 hk2
    simp only [compositeTransform, UDoc.getLabel, hlb]
    exact lookupA_insertA_ne l _ hk2

/-- Witness for C10: the nil-label composite panics; the labelled
composite is updated with the other label preserved. -/
theorem composite_label_write_requires_labels_witness :
    (exXRDocNil.labels = none ∧
      (updateCompositeBody exXRKey exSrcDoc exXRNilOnly).1 = .panicked nilMapMsg) ∧
    (exXRDoc.labels = some [("crossplane.io/claim-namespace", "src")] ∧
      ∃ st', updateCompositeBody exXRKey exSrcDoc exXRCleanOnly = (.err none, st') ∧
        lookupA st'.objects exXRKey =
          some (compositeTransform exXRDoc exSrcDoc
            [("crossplane.io/claim-namespace", "src")]) ∧
        ∀ k2, k2 ≠ claimNamespaceLabel →
          (compositeTransform exXRDoc exSrcDoc
            [("crossplane.io/claim-namespace", "src")]).getLabel k2 =
            exXRDoc.getLabel k2) :=
  ⟨⟨rfl, composite_label_write_requires_labels.1 exXRNilOnly exXRKey exSrcDoc exXRDocNil
      (by decide) rfl⟩,
   ⟨rfl, composite_label_write_requires_labels.2 exXRCleanOnly exXRKey exSrcDoc exXRDoc
      [("crossplane.io/claim-namespace", "src")] (by decide) rfl (by decide) rfl⟩⟩

end ClaimMigrator
